import Mathlib

/-!
# Peer-evaluation client: form authoring and evaluation submission

A shallow embedding of the scoring logic of the browser client
(`pages/Forms.jsx`, `pages/Evaluations.jsx`, `pages/Dashboard.jsx`, `api.js`),
together with the part of the JavaScript value semantics that this logic
relies on (`parseInt`, `||`, `!==`, number addition, number to string
conversion, own-property enumeration order).

Modelling conventions

* The numbers of this program are integer valued: `JSNum` is a finite
  integer, an infinity or `NaN`. A finite Number value is an integer that an
  IEEE double represents exactly; `JSNum.ofInt` rounds a mathematical integer
  to the nearest double (ties to even, overflow to infinity), and addition and
  `parseInt` round through it. Below `2 ^ 53` every integer is a Number value
  and arithmetic is exact. `-0` is identified with `0` (they are `===`, both
  falsy, add alike and have the same text).
* A JavaScript string is a Lean `String`; `parseInt` works on its characters.
* React state is passed explicitly; a handler is a function from the state
  (and, where it awaits the API, the outcome of the call) to the new state
  and the list of effects it issued.
-/

namespace PeerEval

/-! ## JavaScript values -/

/-- A JavaScript number with an integer value: a finite integer, `Infinity` or
`-Infinity`, or `NaN`. -/
inductive JSNum where
  | int (i : Int)
  | inf (negative : Bool)
  | nan
  deriving DecidableEq, Repr

/-- A JavaScript value as it occurs in the drafts and API records. -/
inductive JSVal where
  | undefined
  | null
  | bool (b : Bool)
  | num (x : JSNum)
  | str (s : String)
  deriving DecidableEq, Repr

/-! ## IEEE doubles with integer values -/

/-- The number of binary digits of `m`, computed with the given fuel. -/
def bitLen : Nat → Nat → Nat
  | 0, _ => 0
  | fuel + 1, m => if m = 0 then 0 else bitLen fuel (m / 2) + 1

/-- The number of binary digits of `m` (0 for 0). -/
def bitLength (m : Nat) : Nat := bitLen m m

/-- The magnitude of the double nearest to the natural number `m`: `m` itself
below `2 ^ 53`, and otherwise `m` rounded to 53 significant binary digits, a
tie going to the even significand. -/
def roundNat (m : Nat) : Nat :=
  if m < 9007199254740992 then m
  else
    let e := bitLength m - 53
    let q := m / 2 ^ e
    let r := m % 2 ^ e
    if 2 ^ (e - 1) < r ∨ (r = 2 ^ (e - 1) ∧ q % 2 = 1) then (q + 1) * 2 ^ e else q * 2 ^ e

/-- The shortest decimal significand `s` and number of trailing zeros `z` such
that `s * 10 ^ z` rounds to the double `m`, searched from `z` trailing zeros
downwards; of two significands of the same length the one nearer to `m` is
taken, the even one on a tie (`Number::toString`). -/
def shortestDecimal (m : Nat) : Nat → Nat × Nat
  | 0 => (m, 0)
  | z + 1 =>
    let lo := m / 10 ^ (z + 1)
    let hi := lo + 1
    let okLo := decide (0 < lo ∧ roundNat (lo * 10 ^ (z + 1)) = m)
    let okHi := decide (roundNat (hi * 10 ^ (z + 1)) = m)
    if okLo && okHi then
      if m - lo * 10 ^ (z + 1) < hi * 10 ^ (z + 1) - m then (lo, z + 1)
      else if hi * 10 ^ (z + 1) - m < m - lo * 10 ^ (z + 1) then (hi, z + 1)
      else if lo % 2 = 0 then (lo, z + 1) else (hi, z + 1)
    else if okLo then (lo, z + 1)
    else if okHi then (hi, z + 1)
    else shortestDecimal m z

/-- The text of a double `m` of at least `2 ^ 53`: the digits of the shortest
significand followed by its zeros when that makes at most 21 digits, and
otherwise the exponent form `d.ddde+n`. -/
def renderBig (m : Nat) : List Char :=
  let p := shortestDecimal m (Nat.toDigits 10 m).length
  let ds := Nat.toDigits 10 p.1
  if ds.length + p.2 ≤ 21 then ds ++ List.replicate p.2 '0'
  else
    match ds with
    | [] => ['0']
    | [d] => d :: 'e' :: '+' :: Nat.toDigits 10 p.2
    | d :: rest => d :: '.' :: rest ++ 'e' :: '+' :: Nat.toDigits 10 (rest.length + p.2)

/-- The text of a non-negative finite double: plain decimal digits below
`2 ^ 53`, where they are exact. -/
def natToStr (m : Nat) : String :=
  if m < 9007199254740992 then Nat.repr m else String.mk (renderBig m)

namespace JSNum

/-- The Number value of a mathematical integer: the nearest double, or an
infinity when that is beyond the largest double. -/
def ofInt (i : Int) : JSNum :=
  if 1024 < bitLength (roundNat i.natAbs) then inf (decide (i < 0))
  else if i < 0 then int (-(roundNat i.natAbs : Int))
  else int (roundNat i.natAbs : Int)

/-- Number addition `a + b`: the exact sum rounded to a double; an infinity
absorbs finite numbers, opposite infinities give `NaN`, and `NaN` is absorbing. -/
def add : JSNum → JSNum → JSNum
  | int a, int b => ofInt (a + b)
  | int _, inf n => inf n
  | inf n, int _ => inf n
  | inf n, inf m => if n = m then inf n else nan
  | _, _ => nan

/-- Strict equality `a === b` on numbers: `NaN` equals nothing. -/
def strictEq : JSNum → JSNum → Bool
  | int a, int b => decide (a = b)
  | inf n, inf m => decide (n = m)
  | _, _ => false

/-- Strict inequality `a !== b` on numbers. -/
def strictNe (a b : JSNum) : Bool := !(strictEq a b)

/-- Number to string, as used by `parseInt`, template literals and property keys. -/
def toStr : JSNum → String
  | int i => if i < 0 then "-" ++ natToStr i.natAbs else natToStr i.natAbs
  | inf negative => if negative then "-Infinity" else "Infinity"
  | nan => "NaN"

end JSNum

namespace JSVal

/-- Truthiness (`ToBoolean`). -/
def truthy : JSVal → Bool
  | undefined => false
  | null => false
  | bool b => b
  | num (JSNum.int i) => decide (i ≠ 0)
  | num (JSNum.inf _) => true
  | num JSNum.nan => false
  | str s => decide (s ≠ "")

/-- Logical or `a || b`: the first operand when truthy, else the second. -/
def or (a b : JSVal) : JSVal := if a.truthy then a else b

/-- String conversion (`ToString`) of the primitive values. -/
def toStr : JSVal → String
  | undefined => "undefined"
  | null => "null"
  | bool true => "true"
  | bool false => "false"
  | num x => x.toStr
  | str s => s

end JSVal

/-! ## `parseInt` -/

/-- White space and line terminators skipped at the start of the `parseInt` input. -/
def isStrWhiteSpace (c : Char) : Bool :=
  let n := c.toNat
  n = 9 || n = 10 || n = 11 || n = 12 || n = 13 || n = 32 || n = 160 || n = 5760 ||
  (8192 ≤ n && n ≤ 8202) || n = 8232 || n = 8233 || n = 8239 || n = 8287 ||
  n = 12288 || n = 65279

/-- Value of a character as a digit (`0-9`, `a-z`, `A-Z`), if it is one. -/
def digitValue (c : Char) : Option Nat :=
  let n := c.toNat
  if 48 ≤ n ∧ n ≤ 57 then some (n - 48)
  else if 97 ≤ n ∧ n ≤ 122 then some (n - 87)
  else if 65 ≤ n ∧ n ≤ 90 then some (n - 55)
  else none

/-- Whether the character is a digit of the given radix. -/
def isRadixDigit (radix : Nat) (c : Char) : Bool :=
  match digitValue c with
  | some d => decide (d < radix)
  | none => false

/-- Mathematical value of a digit string in the given radix. -/
def digitsValue (radix : Nat) (z : List Char) : Nat :=
  z.foldl (fun acc c => acc * radix + (digitValue c).getD 0) 0

/-- The sign step of `parseInt`: an optional leading `+` or `-`. -/
def splitSign : List Char → Bool × List Char
  | '-' :: t => (true, t)
  | '+' :: t => (false, t)
  | s => (false, s)

/-- The radix step of `parseInt` with no radix argument: `0x`/`0X` selects 16, else 10. -/
def splitRadix : List Char → Nat × List Char
  | '0' :: 'x' :: t => (16, t)
  | '0' :: 'X' :: t => (16, t)
  | s => (10, s)

/-- The algorithm of `parseInt(string)` on the characters of the input: the
digit run read after white space, sign and radix prefix, as a Number value
(the nearest double of the integer the digits denote). -/
def parseIntChars (s : List Char) : JSNum :=
  let s1 := s.dropWhile isStrWhiteSpace
  let (neg, s2) := splitSign s1
  let (radix, s3) := splitRadix s2
  let z := s3.takeWhile (isRadixDigit radix)
  if z.isEmpty then JSNum.nan
  else if neg then JSNum.ofInt (-(digitsValue radix z : Int))
  else JSNum.ofInt (digitsValue radix z : Int)

/-- The call `parseInt(v)`: the argument is converted to a string and parsed. -/
def parseInt (v : JSVal) : JSNum := parseIntChars v.toStr.toList


/-- A decimal digit character: a digit of radix 10. -/
def IsDecimal (c : Char) : Prop := isRadixDigit 10 c = true

/-- The number literal `0`. -/
def zero : JSVal := .num (.int 0)

/-- A value that holds the integer `n`, of magnitude below `2 ^ 53`, as a
number or as its plain decimal text. -/
def JSVal.IsInteger (v : JSVal) (n : Int) : Prop :=
  n.natAbs < 9007199254740992 ∧ (v = .num (.int n) ∨ v = .str (JSNum.int n).toStr)

/-! ## Objects with enumerable own properties -/

/-- A plain object: its own properties in creation order. -/
abbrev JSObj := List (String × JSVal)

/-- The array index a property key denotes, if any: the key is the canonical
decimal text of an integer below `2 ^ 32 - 1`. -/
def arrayIndex? (k : String) : Option Nat :=
  let n := digitsValue 10 k.toList
  if k = Nat.repr n ∧ n < 4294967295 then some n else none

/-- The numeric order among array-index keys. -/
def indexLe (a b : String × JSVal) : Prop :=
  (arrayIndex? a.1).getD 0 ≤ (arrayIndex? b.1).getD 0

instance : DecidableRel indexLe := fun a b =>
  inferInstanceAs (Decidable ((arrayIndex? a.1).getD 0 ≤ (arrayIndex? b.1).getD 0))

instance : IsTotal (String × JSVal) indexLe := ⟨fun _ _ => Nat.le_total _ _⟩

instance : IsTrans (String × JSVal) indexLe := ⟨fun _ _ _ h1 h2 => Nat.le_trans h1 h2⟩

namespace JSObj

/-- Reading `o[k]`: `none` stands for a missing property. -/
def get? (o : JSObj) (k : String) : Option JSVal :=
  (o.find? (fun e => e.1 = k)).map (fun e => e.2)

/-- The assignment `o[k] = v`: an existing property keeps its place, a new one
is created last. -/
def set : JSObj → String → JSVal → JSObj
  | [], k, v => [(k, v)]
  | e :: o, k, v => if e.1 = k then (k, v) :: o else e :: set o k v

/-- The own properties in enumeration order (`Object.entries`, `Object.values`,
object spread): array-index keys in ascending numeric order, then the other
keys in creation order. -/
def ownEntries (o : JSObj) : JSObj :=
  (o.filter (fun e => (arrayIndex? e.1).isSome)).insertionSort indexLe ++
    o.filter (fun e => (arrayIndex? e.1).isNone)

/-- The spread `{ ...o, [k]: v }`: a fresh object that receives the properties
of `o` in enumeration order and then the assignment of `k`. -/
def spreadSet (o : JSObj) (k : String) (v : JSVal) : JSObj := JSObj.set (ownEntries o) k v

end JSObj

/-! ## Failed API calls -/

/-- One field-error object of a `detail` list: its `msg` and its JSON text. -/
structure FieldError where
  msg : JSVal
  json : String
  deriving DecidableEq, Repr

/-- The `detail` of an error response: a string, a list of field errors, or
some other object (given by its JSON text). -/
inductive ErrDetail where
  | text (s : String)
  | list (errs : List FieldError)
  | object (json : String)
  deriving DecidableEq, Repr

/-- Truthiness of a `detail`: arrays and objects are truthy, a string unless empty. -/
def ErrDetail.truthy : ErrDetail → Bool
  | .text s => decide (s ≠ "")
  | .list _ => true
  | .object _ => true

/-- String conversion of a `detail`, as `alert` performs it: an array joins the
conversions of its elements with a comma, and an object converts to
`[object Object]`. -/
def ErrDetail.toStr : ErrDetail → String
  | .text s => s
  | .list errs => ",".intercalate (errs.map (fun _ => "[object Object]"))
  | .object _ => "[object Object]"

/-- The rejection of an API call: `detail` is `error.response?.data?.detail`
(`none` when the response, its data or the detail is missing) and `message` is
`error.message`. -/
structure ApiError where
  detail : Option ErrDetail
  message : JSVal
  deriving DecidableEq, Repr

/-- The expression `error.response?.data?.detail || fallback`, as shown by `alert`. -/
def ApiError.detailOr (error : ApiError) (fallback : String) : String :=
  match error.detail with
  | some d => if d.truthy then d.toStr else fallback
  | none => fallback

/-- How an awaited API call ends. -/
inductive ApiOutcome where
  | success
  | failure (error : ApiError)
  deriving DecidableEq, Repr

/-! ## `Forms.jsx`: authoring a form -/

namespace Forms

/-- One entry of `formData.criteria` in the draft. -/
structure DraftCriterion where
  name : JSVal
  description : JSVal
  max_points : JSVal
  order_index : JSVal
  deriving DecidableEq, Repr

/-- The draft `formData` of the Forms page. -/
structure FormDraft where
  project_id : JSVal
  title : JSVal
  description : JSVal
  max_score : JSVal
  criteria : List DraftCriterion
  deriving DecidableEq, Repr

/-- The component state that `handleSubmit` reads and writes. -/
structure State where
  showModal : Bool
  isEditing : Bool
  editingId : JSVal
  formData : FormDraft
  deriving DecidableEq, Repr

/-- A criterion of the body sent to `formsAPI.create`. -/
structure PayloadCriterion where
  text : JSVal
  description : JSVal
  max_points : JSNum
  order_index : Nat
  deriving DecidableEq, Repr

/-- The body `submitData` sent to `formsAPI.create`. -/
structure CreatePayload where
  project_id : JSNum
  title : JSVal
  description : JSVal
  max_score : JSNum
  criteria : List PayloadCriterion
  deriving DecidableEq, Repr

/-- The body sent to `formsAPI.update`. -/
structure UpdatePayload where
  title : JSVal
  description : JSVal
  max_score : JSNum
  deriving DecidableEq, Repr

/-- What `handleSubmit` does to the outside, in order. -/
inductive Effect where
  | alert (msg : String)
  | apiCreate (body : CreatePayload)
  | apiUpdate (id : JSVal) (body : UpdatePayload)
  | apiDelete (id : JSVal)
  | loadData
  deriving DecidableEq, Repr

/-- Whether the effect is a call of `formsAPI.create` or `formsAPI.update`. -/
def Effect.isApiCall : Effect → Bool
  | .apiCreate _ => true
  | .apiUpdate _ _ => true
  | _ => false

/-- The draft installed by `useState` and by `resetForm`. -/
def initialDraft : FormDraft :=
  { project_id := .str "", title := .str "", description := .str "",
    max_score := .num (.int 100),
    criteria := [{ name := .str "", description := .str "",
                   max_points := .num (.int 10), order_index := .num (.int 0) }] }

/-- The summand `parseInt(c.max_points || 0)` of one criterion. -/
def criterionPoints (c : DraftCriterion) : JSNum := parseInt (c.max_points.or zero)

/-- The reduction
`formData.criteria.reduce((sum, c) => sum + parseInt(c.max_points || 0), 0)`. -/
def totalPoints (fd : FormDraft) : JSNum :=
  fd.criteria.foldl (fun sum c => sum.add (criterionPoints c)) (.int 0)

/-- The guard `totalPoints !== parseInt(formData.max_score)`. -/
def criteriaSumMismatch (fd : FormDraft) : Bool :=
  (totalPoints fd).strictNe (parseInt fd.max_score)

/-- The text alerted when the guard holds. -/
def mismatchMessage (fd : FormDraft) : String :=
  "Criteria points (" ++ (totalPoints fd).toStr ++ ") must sum to max score (" ++
    fd.max_score.toStr ++ ")"

/-- The mapped criteria of `submitData`: `max_points` parsed, `order_index` the position. -/
def payloadCriteria (cs : List DraftCriterion) : List PayloadCriterion :=
  cs.enum.map (fun p =>
    { text := p.2.name, description := p.2.description,
      max_points := parseInt p.2.max_points, order_index := p.1 })

/-- The object `submitData`. -/
def submitData (fd : FormDraft) : CreatePayload :=
  { project_id := parseInt fd.project_id, title := fd.title, description := fd.description,
    max_score := parseInt fd.max_score, criteria := payloadCriteria fd.criteria }

/-- The object passed to `formsAPI.update`. -/
def updateData (fd : FormDraft) : UpdatePayload :=
  { title := fd.title, description := fd.description, max_score := parseInt fd.max_score }

/-- The handler `resetForm`. -/
def resetForm (s : State) : State :=
  { s with isEditing := false, editingId := .null, formData := initialDraft }

/-- The API call `handleSubmit` makes once the guard is passed. -/
def apiCall (s : State) : Effect :=
  if s.isEditing then .apiUpdate s.editingId (updateData s.formData)
  else .apiCreate (submitData s.formData)

/-- The handler `handleSubmit` of the Forms page: the state after it and the
effects it issued, given how the awaited API call ends. -/
def handleSubmit (s : State) (api : ApiOutcome) : State × List Effect :=
  if criteriaSumMismatch s.formData then
    (s, [.alert (mismatchMessage s.formData)])
  else
    match api with
    | .success =>
      (resetForm { s with showModal := false },
        [apiCall s,
         .alert (if s.isEditing then "Form updated successfully!"
                 else "Form created successfully!"),
         .loadData])
    | .failure error =>
      (s, [apiCall s,
           .alert (error.detailOr
             (if s.isEditing then "Failed to update form" else "Failed to create form"))])

/-- The handler `handleDelete(id)`: the effects it issues, given the answer to
the `confirm` dialog and how the awaited `formsAPI.delete` ends. It does not
touch the draft state. -/
def handleDelete (id : JSVal) (confirmed : Bool) (api : ApiOutcome) : List Effect :=
  if !confirmed then []
  else
    match api with
    | .success => [.apiDelete id, .alert "Form deleted successfully!", .loadData]
    | .failure error => [.apiDelete id, .alert (error.detailOr "Failed to delete form")]

/-- The handler `addCriterion`: a blank criterion worth 10 is appended, with
the current number of criteria as its `order_index`. -/
def addCriterion (s : State) : State :=
  { s with formData := { s.formData with
      criteria := s.formData.criteria ++
        [{ name := .str "", description := .str "", max_points := .num (.int 10),
           order_index := .num (.int s.formData.criteria.length) }] } }

/-- The expression `formData.criteria.filter((_, idx) => idx !== index)`. -/
def withoutIndex (cs : List DraftCriterion) (index : Nat) : List DraftCriterion :=
  (cs.enum.filter (fun p => decide (p.1 ≠ index))).map (fun p => p.2)

/-- The handler `removeCriterion(index)`: with at most one criterion it alerts
and returns; otherwise the criterion at the index is filtered out. -/
def removeCriterion (s : State) (index : Nat) : State × List Effect :=
  if s.formData.criteria.length ≤ 1 then
    (s, [.alert "Form must have at least one criterion"])
  else
    ({ s with formData := { s.formData with
        criteria := withoutIndex s.formData.criteria index } }, [])

/-- A click on `Add Criterion` or on the `Remove` button of a criterion. -/
inductive DraftEdit where
  | add
  | remove (index : Nat)
  deriving DecidableEq, Repr

/-- The state after one edit of the criteria list. -/
def applyEdit (s : State) : DraftEdit → State
  | .add => addCriterion s
  | .remove index => (removeCriterion s index).1

/-- The state after a sequence of edits of the criteria list. -/
def applyEdits (s : State) (edits : List DraftEdit) : State :=
  edits.foldl applyEdit s

/-- The `order_index` values of the draft criteria, in order. -/
def orderIndexes (s : State) : List JSVal :=
  s.formData.criteria.map (fun c => c.order_index)

end Forms

/-! ## `Evaluations.jsx`: submitting an evaluation -/

namespace Evaluations

/-- A criterion of a form as the API returns it. -/
structure Criterion where
  id : Int
  text : String
  max_points : Int
  deriving DecidableEq, Repr

/-- A form as `formsAPI.get` returns it; `criteria` is `form.criteria || []`. -/
structure EvalForm where
  id : Int
  max_score : Int
  criteria : List Criterion
  deriving DecidableEq, Repr

/-- A team member as `teamsAPI.get` returns it. -/
structure Member where
  id : Int
  name : String
  deriving DecidableEq, Repr

/-- The logged-in user passed to the page. -/
structure User where
  id : Int
  role : String
  deriving DecidableEq, Repr

/-- The draft `formData` of the Evaluations page. -/
structure EvalDraft where
  evaluation_form_id : JSVal
  team_id : JSVal
  evaluatee_id : JSVal
  scores : JSObj
  comments : JSVal
  deriving DecidableEq, Repr

/-- The component state the submission flow reads and writes. -/
structure State where
  showModal : Bool
  selectedForm : Option EvalForm
  teamMembers : List Member
  formData : EvalDraft
  deriving DecidableEq, Repr

/-- One element of the `scores` array of the request body. -/
structure ScoreEntry where
  criterion_id : JSNum
  score : JSNum
  deriving DecidableEq, Repr

/-- The body `submitData` sent to `evaluationsAPI.create`. -/
structure Payload where
  form_id : JSNum
  evaluator_id : Int
  evaluatee_id : JSNum
  team_id : JSNum
  total_score : JSNum
  scores : List ScoreEntry
  comments : JSVal
  deriving DecidableEq, Repr

/-- What `handleSubmit` does to the outside, in order. -/
inductive Effect where
  | alert (msg : String)
  | apiCreate (body : Payload)
  | loadData
  deriving DecidableEq, Repr

/-- The draft installed by `useState` and after a successful submission. -/
def initialDraft : EvalDraft :=
  { evaluation_form_id := .str "", team_id := .str "", evaluatee_id := .str "",
    scores := [], comments := .str "" }

/-- The property key of a criterion id (`ToPropertyKey` of the number). -/
def scoreKey (id : Int) : String := (JSNum.int id).toStr

/-- The object `initialScores` built by `loadFormDetails`: `0` for every criterion. -/
def initialScores (form : EvalForm) : JSObj :=
  form.criteria.foldl (fun o c => o.set (scoreKey c.id) zero) []

/-- The success path of `loadFormDetails`: the form is selected and the scores
are replaced by the initial ones. -/
def loadFormDetails (s : State) (form : EvalForm) : State :=
  { s with selectedForm := some form,
           formData := { s.formData with scores := initialScores form } }

/-- The value `parseInt(score) || 0` stored by `handleScoreChange`. -/
def storedScore (score : JSVal) : JSVal := (JSVal.num (parseInt score)).or zero

/-- The state update of `handleScoreChange(criterionId, score)`. -/
def scoreChange (prev : EvalDraft) (criterionId score : JSVal) : EvalDraft :=
  { prev with scores := prev.scores.spreadSet criterionId.toStr (storedScore score) }

/-- The handler `handleScoreChange`. -/
def handleScoreChange (s : State) (criterionId score : JSVal) : State :=
  { s with formData := scoreChange s.formData criterionId score }

/-- The array `scoresArray` of `handleSubmit`. -/
def scoresArray (fd : EvalDraft) : List ScoreEntry :=
  fd.scores.ownEntries.map (fun e =>
    { criterion_id := parseInt (.str e.1), score := parseInt e.2 })

/-- The reduction `scoresArray.reduce((sum, scoreObj) => sum + scoreObj.score, 0)`. -/
def totalScore (fd : EvalDraft) : JSNum :=
  (scoresArray fd).foldl (fun sum scoreObj => sum.add scoreObj.score) (.int 0)

/-- The object `submitData` of `handleSubmit`. -/
def submitData (user : User) (fd : EvalDraft) : Payload :=
  { form_id := parseInt fd.evaluation_form_id, evaluator_id := user.id,
    evaluatee_id := parseInt fd.evaluatee_id, team_id := parseInt fd.team_id,
    total_score := totalScore fd, scores := scoresArray fd,
    comments := fd.comments.or (.str "") }

/-- The message `errorMessage` computed in the `catch` block of `handleSubmit`. -/
def errorMessage (error : ApiError) : String :=
  let fromMessage :=
    if error.message.truthy then error.message.toStr else "Failed to submit evaluation"
  match error.detail with
  | some (.text s) => if s ≠ "" then s else fromMessage
  | some (.list errs) =>
    ", ".intercalate (errs.map (fun err => (err.msg.or (.str err.json)).toStr))
  | some (.object json) => json
  | none => fromMessage

/-- The handler `handleSubmit` of the Evaluations page: the state after it and
the effects it issued, given how the awaited `evaluationsAPI.create` ends. -/
def handleSubmit (user : User) (s : State) (api : ApiOutcome) : State × List Effect :=
  match api with
  | .success =>
    ({ s with showModal := false, formData := initialDraft, selectedForm := none },
      [.apiCreate (submitData user s.formData),
       .alert "Evaluation submitted successfully!",
       .loadData])
  | .failure error =>
    (s, [.apiCreate (submitData user s.formData), .alert (errorMessage error)])

/-- The handler `handleFormChange(formId)` together with the `loadFormDetails`
call it starts: `load` is the form `formsAPI.get` answers, or `none` when the
request fails. The chosen id is stored first; for a non-empty `formId` the
details are loaded (on failure only an alert is shown), otherwise the selected
form is cleared. -/
def handleFormChange (s : State) (formId : String) (load : Option EvalForm) :
    State × List Effect :=
  let s1 := { s with formData := { s.formData with
                evaluation_form_id := .num (parseInt (.str formId)) } }
  if formId ≠ "" then
    match load with
    | some form => (loadFormDetails s1 form, [])
    | none => (s1, [.alert "Failed to load form criteria"])
  else
    ({ s1 with selectedForm := none }, [])

/-- How one of the list requests of the initial load ends: it fails, or it
answers with its list field (`none` when the field is missing). -/
inductive ListOutcome where
  | failed
  | loaded (items : Option (List JSVal))
  deriving DecidableEq, Repr

/-- The list state of the Evaluations page. -/
structure Lists where
  evaluations : List JSVal
  forms : List JSVal
  teams : List JSVal
  loading : Bool
  deriving DecidableEq, Repr

/-- The list state installed by `useState`. -/
def initialLists : Lists := { evaluations := [], forms := [], teams := [], loading := true }

/-- The function `loadData` of the Evaluations page: `Promise.all` resolves
only if the three requests succeed, and then the lists are set (`|| []` for a
missing field); otherwise the `catch` block alerts. `finally` clears `loading`. -/
def loadData (p : Lists) (evaluationsRes formsRes teamsRes : ListOutcome) :
    Lists × List Effect :=
  match evaluationsRes, formsRes, teamsRes with
  | .loaded evaluations, .loaded forms, .loaded teams =>
    ({ evaluations := evaluations.getD [], forms := forms.getD [], teams := teams.getD [],
       loading := false }, [])
  | _, _, _ => ({ p with loading := false }, [.alert "Failed to load evaluations"])

/-- Whether the page renders the `No evaluations yet.` card. -/
def Lists.showsEmptyState (p : Lists) : Bool := !p.loading && decide (p.evaluations.length = 0)

/-- The total shown in the modal:
`Object.values(formData.scores).reduce((sum, score) => sum + parseInt(score || 0), 0)`. -/
def liveTotal (fd : EvalDraft) : JSNum :=
  (fd.scores.ownEntries.map (fun e => e.2)).foldl
    (fun sum score => sum.add (parseInt (score.or zero))) (.int 0)

/-- The score state after `loadFormDetails(form)` and then the given
`handleScoreChange(criterionId, score)` calls, in order. -/
def afterChanges (s : State) (form : EvalForm) (changes : List (JSVal × JSVal)) : State :=
  changes.foldl (fun st ch => handleScoreChange st ch.1 ch.2) (loadFormDetails s form)

/-- The score the spec's total calculator reads for a criterion: `M[c.id]`,
a missing key counting as 0. -/
def specScore (M : JSObj) (id : Int) : JSNum :=
  match M.get? (scoreKey id) with
  | some (.num x) => x
  | some _ => .nan
  | none => .int 0

/-- The total as the spec words it: the sum of `M[c.id]` over the criteria of
the form, in criteria order, a missing key counting as 0. -/
def computeTotalSpec (form : EvalForm) (M : JSObj) : JSNum :=
  form.criteria.foldl (fun sum c => sum.add (specScore M c.id)) (.int 0)

/-- The criterion ids of a form, in criteria order. -/
def criterionIds (form : EvalForm) : List Int := form.criteria.map (fun c => c.id)

/-- The calls `handleScoreChange(criterion.id, e.target.value)` made by the
score inputs: the criterion id is passed as a number. -/
def inputChanges (changes : List (Int × JSVal)) : List (JSVal × JSVal) :=
  changes.map (fun ch => (JSVal.num (.int ch.1), ch.2))

/-- An `option` element of a `select`: an element without a `value`
attribute has its text as value. -/
structure SelectOption where
  value : String
  label : String
  disabled : Bool
  deriving DecidableEq, Repr

/-- The options rendered inside the evaluatee `select`. -/
def evaluateeOptions (fd : EvalDraft) (teamMembers : List Member) (user : User) :
    List SelectOption :=
  { value := "", label := "Select a team member", disabled := false } ::
    (if !fd.team_id.truthy then
      [{ value := "Please select a team first", label := "Please select a team first",
         disabled := true }]
    else if teamMembers.length = 0 then
      [{ value := "No other team members available",
         label := "No other team members available", disabled := true }]
    else
      (teamMembers.filter (fun member => decide (member.id ≠ user.id))).map
        (fun member =>
          { value := (JSNum.int member.id).toStr, label := member.name, disabled := false }))

/-- The options that select an evaluatee: enabled and with a non-empty value
(the empty value is the placeholder `Select a team member`). -/
def selectableEvaluatees (options : List SelectOption) : List SelectOption :=
  options.filter (fun o => !o.disabled && decide (o.value ≠ ""))

/-- The options rendered inside the team `select`, as values. -/
def teamOptionValues (teams : List (Int × String)) : List String :=
  "" :: (if teams.length = 0 then []
         else teams.map (fun team => (JSNum.int team.1).toStr))

/-- The submission flow between renders: the component state and the
`teamsAPI.get` requests of `loadTeamMembers` that have not settled yet. -/
structure FlowState where
  state : State
  pending : List JSVal
  deriving DecidableEq, Repr

/-- What can happen next in the flow. -/
inductive FlowEvent where
  /-- The user picks the option with this value in the team `select`. -/
  | selectTeam (value : String)
  /-- The user picks the option with this value in the evaluatee `select`. -/
  | selectEvaluatee (value : String)
  /-- The pending `teamsAPI.get` request at this position settles. -/
  | settle (index : Nat)
  deriving DecidableEq, Repr

/-- The page as mounted: the initial draft, no members, nothing in flight. -/
def initialFlow : FlowState :=
  { state := { showModal := true, selectedForm := none, teamMembers := [],
               formData := initialDraft },
    pending := [] }

/-- One step of the flow. `directory` is the server: the members `teamsAPI.get`
answers for a team id, or `none` when the request fails. An event that the
rendered controls do not offer gives `none`.

* team `select`: `onChange` stores `parseInt(value)` and clears the evaluatee;
  the effect on `formData.team_id` then runs if the id changed, calling
  `loadTeamMembers` for a truthy id and `setTeamMembers([])` otherwise;
* evaluatee `select`: enabled while `formData.team_id` is truthy; `onChange`
  stores `parseInt(value)`;
* a settled request runs the rest of `loadTeamMembers`: `setTeamMembers` of the
  answered members, or of `[]` on failure. -/
def flowStep (user : User) (teams : List (Int × String))
    (directory : JSVal → Option (List Member)) (fs : FlowState) :
    FlowEvent → Option FlowState
  | .selectTeam value =>
    if value ∈ teamOptionValues teams then
      let teamId := JSVal.num (parseInt (.str value))
      let fd := { fs.state.formData with team_id := teamId, evaluatee_id := .str "" }
      if fs.state.formData.team_id = teamId then
        some { fs with state := { fs.state with formData := fd } }
      else if teamId.truthy then
        some { state := { fs.state with formData := fd }, pending := fs.pending ++ [teamId] }
      else
        some { fs with state := { fs.state with formData := fd, teamMembers := [] } }
    else none
  | .selectEvaluatee value =>
    if fs.state.formData.team_id.truthy ∧
        value ∈ ((evaluateeOptions fs.state.formData fs.state.teamMembers user).filter
          (fun o => !o.disabled)).map (fun o => o.value) then
      some { fs with state := { fs.state with
        formData := { fs.state.formData with
          evaluatee_id := .num (parseInt (.str value)) } } }
    else none
  | .settle index =>
    match fs.pending.get? index with
    | some teamId =>
      some { state := { fs.state with teamMembers := (directory teamId).getD [] },
             pending := fs.pending.eraseIdx index }
    | none => none

/-- The flow after a sequence of events, if the controls offer each of them. -/
def flowRun (user : User) (teams : List (Int × String))
    (directory : JSVal → Option (List Member)) (fs : FlowState) :
    List FlowEvent → Option FlowState
  | [] => some fs
  | ev :: evs =>
    match flowStep user teams directory fs ev with
    | some fs1 => flowRun user teams directory fs1 evs
    | none => none

end Evaluations

/-! ## `api.js`: the interceptors of the shared HTTP client -/

namespace Api

/-- The browser state the interceptors read and write: the entries of
`localStorage` and `window.location.href`. -/
structure Browser where
  localStorage : List (String × String)
  location : String
  deriving DecidableEq, Repr

/-- The call `localStorage.getItem(key)`: `none` stands for `null`. -/
def getItem (b : Browser) (key : String) : Option String :=
  (b.localStorage.find? (fun e => e.1 = key)).map (fun e => e.2)

/-- What the response interceptor does to the browser. -/
inductive BrowserEffect where
  | removeItem (key : String)
  | assignLocation (href : String)
  deriving DecidableEq, Repr

/-- The effect carried out on the browser state. -/
def BrowserEffect.apply (b : Browser) : BrowserEffect → Browser
  | .removeItem key =>
    { b with localStorage := b.localStorage.filter (fun e => decide (e.1 ≠ key)) }
  | .assignLocation href => { b with location := href }

/-- An outgoing request config: `headers` is the object `config.headers`. -/
structure RequestConfig where
  url : String
  method : String
  data : JSVal
  headers : JSObj
  deriving DecidableEq, Repr

/-- The request interceptor: with a truthy stored token the `Authorization`
header is assigned, and the config is returned. -/
def requestInterceptor (b : Browser) (config : RequestConfig) : RequestConfig :=
  match getItem b "token" with
  | some token =>
    if token ≠ "" then
      { config with
          headers := JSObj.set config.headers "Authorization" (.str ("Bearer " ++ token)) }
    else config
  | none => config

/-- The error handed to the response interceptor: `status` is
`error.response?.status` (`none` when there is no response). -/
structure ResponseError where
  status : Option JSVal
  error : ApiError
  deriving DecidableEq, Repr

/-- How the promise returned by an interceptor settles. -/
inductive Settled where
  | rejected (error : ResponseError)
  deriving DecidableEq, Repr

/-- The effects of the response-error interceptor: on
`error.response?.status === 401` the session entries are removed and the page
is sent to the login route. -/
def responseErrorEffects (error : ResponseError) : List BrowserEffect :=
  if error.status = some (.num (.int 401)) then
    [.removeItem "token", .removeItem "user", .assignLocation "/login"]
  else []

/-- The response-error interceptor: the browser state after it and the
settlement `Promise.reject(error)` it returns. -/
def responseErrorInterceptor (b : Browser) (error : ResponseError) : Browser × Settled :=
  ((responseErrorEffects error).foldl BrowserEffect.apply b, .rejected error)

end Api

/-! ## `Dashboard.jsx`: the initial load -/

namespace Dashboard

/-- The object `stats`. -/
structure Stats where
  projects : JSVal
  teams : JSVal
  evaluations : JSVal
  pending : JSVal
  deriving DecidableEq, Repr

/-- The state of the Dashboard. -/
structure State where
  stats : Stats
  recentProjects : List JSVal
  loading : Bool
  deriving DecidableEq, Repr

/-- The state installed by `useState`. -/
def initialState : State :=
  { stats := { projects := zero, teams := zero, evaluations := zero, pending := zero },
    recentProjects := [], loading := true }

/-- How one of the list requests ends: it fails, or it answers with
`data.count` and, for the projects, `data.projects` (`none` when missing). -/
inductive ListOutcome where
  | failed
  | loaded (count : JSVal) (projects : Option (List JSVal))
  deriving DecidableEq, Repr

/-- The function `loadDashboard`: `Promise.all` resolves only if the three
requests succeed, and then the stats and the first five projects are set;
otherwise the `catch` block only logs. `finally` clears `loading`. -/
def loadDashboard (s : State) (projectsRes teamsRes evalsRes : ListOutcome) : State :=
  match projectsRes, teamsRes, evalsRes with
  | .loaded projectCount projects, .loaded teamCount _, .loaded evalCount _ =>
    { stats := { projects := projectCount.or zero, teams := teamCount.or zero,
                 evaluations := evalCount.or zero, pending := zero },
      recentProjects := (projects.getD []).take 5,
      loading := false }
  | _, _, _ => { s with loading := false }

/-- Whether the Dashboard renders the `No projects yet.` block. -/
def State.showsEmptyState (s : State) : Bool :=
  !s.loading && decide (s.recentProjects.length = 0)

end Dashboard

/-- The integer a stored score holds (0 for anything that is not an integer). -/
def JSVal.intOr0 : JSVal → Int
  | .num (.int n) => n
  | _ => 0

/-- The keys of an object, in creation order. -/
def JSObj.keys (o : JSObj) : List String := o.map (fun e => e.1)

/-- The score object after the given `handleScoreChange` updates. -/
def Evaluations.scoresAfter (o : JSObj) (changes : List (JSVal × JSVal)) : JSObj :=
  changes.foldl (fun o ch => o.spreadSet ch.1.toStr (Evaluations.storedScore ch.2)) o

/-- The array index of a property key as an integer (0 when it is none). -/
def keyIndex (k : String) : Int := (((arrayIndex? k).getD 0 : Nat) : Int)

/-- The entry the payload holds for a criterion id over the score object `M`:
the id and `parseInt` of the value stored under it (a missing property read
as 0). -/
def Evaluations.entryFor (M : JSObj) (id : Int) : Evaluations.ScoreEntry :=
  { criterion_id := .int id,
    score := parseInt ((M.get? (Evaluations.scoreKey id)).getD zero) }

/-- The property of a score object at the key of an integer id, a missing
property read as 0. -/
def entryAt (o : JSObj) (i : Int) : String × JSVal :=
  (Evaluations.scoreKey i, (o.get? (Evaluations.scoreKey i)).getD zero)

/-! ## Worked inputs -/

/-- The draft of the example: criteria worth 10 (a number) and 15 (typed text),
with the given max score, in create or edit mode. -/
def exampleDraft (maxScore : JSVal) (editing : Bool) : Forms.State :=
  { showModal := true, isEditing := editing,
    editingId := if editing then .num (.int 4) else .null,
    formData := { Forms.initialDraft with
      max_score := maxScore,
      criteria := [{ name := .str "Communication", description := .str "",
                     max_points := .num (.int 10), order_index := .num (.int 0) },
                   { name := .str "Teamwork", description := .str "",
                     max_points := .str "15", order_index := .num (.int 1) }] } }

/-- A criterion of the draft with the given max points field. -/
def criterionWith (maxPoints : JSVal) : Forms.DraftCriterion :=
  { name := .str "Quality", description := .str "", max_points := maxPoints,
    order_index := .num (.int 0) }

/-- A draft whose two criteria are worth 9007199254740991 and 2 (typed texts),
with the max score 9007199254740992, in create or edit mode. -/
def roundedSumDraft (editing : Bool) : Forms.State :=
  { showModal := true, isEditing := editing,
    editingId := if editing then .num (.int 4) else .null,
    formData := { Forms.initialDraft with
      project_id := .str "3", title := .str "Sprint review",
      max_score := .str "9007199254740992",
      criteria := [criterionWith (.str "9007199254740991"), criterionWith (.str "2")] } }

/-- A create-mode draft whose max score is typed in exponent form, `1e2` (the
number 100), with one criterion of the given max points. -/
def exponentScoreDraft (points : JSVal) : Forms.State :=
  { showModal := true, isEditing := false, editingId := .null,
    formData := { Forms.initialDraft with
      project_id := .str "3", title := .str "Sprint review",
      max_score := .str "1e2",
      criteria := [criterionWith points] } }

/-- The text of four hundred nines. -/
def nines : String := String.mk (List.replicate 400 '9')

/-- An edit-mode draft whose only criterion and whose max score both hold the
text of four hundred nines. -/
def overflowDraft : Forms.State :=
  { showModal := true, isEditing := true, editingId := .num (.int 4),
    formData := { Forms.initialDraft with
      title := .str "Sprint review",
      max_score := .str nines,
      criteria := [criterionWith (.str nines)] } }

/-- The page state before a form is loaded. -/
def freshPage : Evaluations.State := Evaluations.initialFlow.state

/-- The form of the round-trip example: criteria 1, 2, 3 worth 10, 20, 20. -/
def roundTripForm : Evaluations.EvalForm :=
  { id := 5, max_score := 50,
    criteria := [{ id := 1, text := "Communication", max_points := 10 },
                 { id := 2, text := "Teamwork", max_points := 20 },
                 { id := 3, text := "Delivery", max_points := 20 }] }

/-- A form that lists the criterion with id 2 before the criterion with id 1. -/
def reorderedForm : Evaluations.EvalForm :=
  { id := 6, max_score := 25,
    criteria := [{ id := 2, text := "Teamwork", max_points := 15 },
                 { id := 1, text := "Communication", max_points := 10 }] }

/-- The form of the end-to-end example: criteria 1 and 2 worth 10 and 15. -/
def endToEndForm : Evaluations.EvalForm :=
  { id := 7, max_score := 25,
    criteria := [{ id := 1, text := "Communication", max_points := 10 },
                 { id := 2, text := "Teamwork", max_points := 15 }] }

/-- The evaluator of the examples, user A with id 10. -/
def userA : Evaluations.User := { id := 10, role := "student" }

/-- The teams of the examples. -/
def exampleTeams : List (Int × String) := [(1, "Alpha"), (2, "Beta")]

/-- The server of the examples: team 1 has the members A (10) and B (11),
team 2 the members A (10) and C (12); any other request fails. -/
def exampleDirectory (teamId : JSVal) : Option (List Evaluations.Member) :=
  if teamId = .num (.int 1) then some [{ id := 10, name := "A" }, { id := 11, name := "B" }]
  else if teamId = .num (.int 2) then some [{ id := 10, name := "A" }, { id := 12, name := "C" }]
  else none

/-- The events: team 1 is chosen and its members arrive, then team 2 is chosen
and, while its members are still loading, member B of team 1 is picked from
the list still on display. -/
def staleMembersTrace : List Evaluations.FlowEvent :=
  [.selectTeam "1", .settle 0, .selectTeam "2", .selectEvaluatee "11"]

/-- A rejection whose response carries the empty string as `detail`. -/
def emptyDetailError : ApiError :=
  { detail := some (.text ""), message := .str "Request failed with status code 400" }

/-- A rejection whose response carries no `detail`. -/
def noDetailError : ApiError :=
  { detail := none, message := .str "Request failed with status code 500" }

/-- A rejection whose `detail` is a list of two field errors. -/
def fieldErrorsError : ApiError :=
  { detail := some (.list
      [{ msg := .str "field required", json := "\x7b\"msg\":\"field required\"\x7d" },
       { msg := .str "value is not a valid integer",
         json := "\x7b\"msg\":\"value is not a valid integer\"\x7d" }]),
    message := .str "Request failed with status code 422" }

/-- A browser holding a session, on the forms page. -/
def sessionBrowser : Api.Browser :=
  { localStorage := [("theme", "dark"), ("token", "abc123"), ("user", "\x7b\"id\":10\x7d")],
    location := "/forms" }

/-- A request for the list of forms, with the default content type header. -/
def formsRequest : Api.RequestConfig :=
  { url := "/forms/", method := "get", data := .undefined,
    headers := [("Content-Type", .str "application/json")] }

/-- A create-mode draft with max score 10 and the two given criteria points. -/
def twoPointsDraft (first second : JSVal) : Forms.State :=
  { showModal := true, isEditing := false, editingId := .null,
    formData := { Forms.initialDraft with
      project_id := .str "3", title := .str "Sprint review",
      max_score := .str "10",
      criteria := [criterionWith first, criterionWith second] } }

/-- A form without criteria: score properties are then created by the changes. -/
def emptyForm : Evaluations.EvalForm := { id := 8, max_score := 0, criteria := [] }

/-- The server's answer for form 5 and, after scores are entered, a failed
load of form 6: the states of the page along the way. -/
def afterFailedFormLoad : Evaluations.State :=
  (Evaluations.handleFormChange
    (Evaluations.handleScoreChange
      (Evaluations.handleFormChange freshPage "5" (some roundTripForm)).1
      (.num (.int 2)) (.str "15"))
    "6" none).1

/-- The page after form 5 was loaded and the form selection was then cleared. -/
def afterClearedSelection : Evaluations.State :=
  (Evaluations.handleFormChange
    (Evaluations.handleFormChange freshPage "5" (some roundTripForm)).1 "" none).1

/-- The edits: two criteria added, the first criterion removed, one more added. -/
def addAfterRemove : List Forms.DraftEdit := [.add, .add, .remove 0, .add]

/-! ## Decimal rendering and `parseInt` -/

theorem digitChar_decimal (d : Nat) (h : d < 10) :
    IsDecimal (Nat.digitChar d) ∧ digitValue (Nat.digitChar d) = some d := by
  unfold IsDecimal
  interval_cases d <;> decide

theorem decimal_not_special (c : Char) (h : IsDecimal c) :
    isStrWhiteSpace c = false ∧ c ≠ '-' ∧ c ≠ '+' ∧ c ≠ 'x' ∧ c ≠ 'X' := by
  unfold IsDecimal isRadixDigit digitValue at h
  have hn : 48 ≤ c.toNat ∧ c.toNat ≤ 57 := by
    by_contra hc
    simp only [hc, if_false] at h
    split_ifs at h <;> simp at h <;> omega
  refine ⟨?_, ?_, ?_, ?_, ?_⟩
  · simp only [isStrWhiteSpace, Bool.or_eq_false_iff, decide_eq_false_iff_not, Bool.and_eq_false_iff]
    omega
  all_goals
    rintro rfl
    revert hn
    decide

theorem digitsValue_append (radix : Nat) (z : List Char) (c : Char) :
    digitsValue radix (z ++ [c]) = digitsValue radix z * radix + (digitValue c).getD 0 := by
  simp [digitsValue, List.foldl_append]

/-- The digits produced by the decimal rendering loop: a non-empty run of decimal
digits whose value is the number rendered, put in front of the accumulator. -/
theorem toDigitsCore_spec (fuel : Nat) : ∀ (n : Nat) (ds : List Char), n < fuel →
    ∃ pre, Nat.toDigitsCore 10 fuel n ds = pre ++ ds ∧ pre ≠ [] ∧
      (∀ c ∈ pre, IsDecimal c) ∧ digitsValue 10 pre = n := by
  induction fuel with
  | zero => intro n ds h; omega
  | succ fuel ih =>
    intro n ds h
    have hd := digitChar_decimal (n % 10) (Nat.mod_lt _ (by decide))
    by_cases h0 : n / 10 = 0
    · refine ⟨[Nat.digitChar (n % 10)], ?_, by simp, ?_, ?_⟩
      · simp [Nat.toDigitsCore, h0]
      · intro c hc
        simp only [List.mem_singleton] at hc
        subst hc
        exact hd.1
      · have := digitsValue_append 10 [] (Nat.digitChar (n % 10))
        simp only [List.nil_append, hd.2, Option.getD_some] at this
        rw [this]
        simp only [digitsValue, List.foldl_nil]
        omega
    · have hlt : n / 10 < fuel := by omega
      obtain ⟨pre, hpre, _, hall, hval⟩ := ih (n / 10) (Nat.digitChar (n % 10) :: ds) hlt
      refine ⟨pre ++ [Nat.digitChar (n % 10)], ?_, by simp, ?_, ?_⟩
      · simp [Nat.toDigitsCore, h0, hpre]
      · intro c hc
        rcases List.mem_append.1 hc with hc | hc
        · exact hall c hc
        · simp only [List.mem_singleton] at hc
          subst hc
          exact hd.1
      · rw [digitsValue_append, hval, hd.2]
        simp only [Option.getD_some]
        omega

theorem toDigits_spec (n : Nat) :
    Nat.toDigits 10 n ≠ [] ∧ (∀ c ∈ Nat.toDigits 10 n, IsDecimal c) ∧
      digitsValue 10 (Nat.toDigits 10 n) = n := by
  obtain ⟨pre, hpre, hne, hall, hval⟩ := toDigitsCore_spec (n + 1) n [] (Nat.lt_succ_self n)
  have : Nat.toDigits 10 n = pre := by simpa [Nat.toDigits] using hpre
  rw [this]
  exact ⟨hne, hall, hval⟩

/-- Parsing a non-empty run of decimal digits gives the Number value of the run. -/
theorem parseIntChars_decimal (z : List Char) (hne : z ≠ []) (hall : ∀ c ∈ z, IsDecimal c) :
    parseIntChars z = JSNum.ofInt (digitsValue 10 z) ∧
      parseIntChars ('-' :: z) = JSNum.ofInt (-(digitsValue 10 z : Int)) := by
  obtain ⟨c, t, rfl⟩ := List.exists_cons_of_ne_nil hne
  have hc := decimal_not_special c (hall c (by simp))
  have hdrop : List.dropWhile isStrWhiteSpace (c :: t) = c :: t := by
    simp [List.dropWhile, hc.1]
  have hsign : splitSign (c :: t) = (false, c :: t) := by
    unfold splitSign
    split
    · rename_i heq; simp at heq; exact absurd heq.1 hc.2.1
    · rename_i heq; simp at heq; exact absurd heq.1 hc.2.2.1
    · rfl
  have hradix : splitRadix (c :: t) = (10, c :: t) := by
    unfold splitRadix
    split
    · rename_i heq
      simp at heq
      have := decimal_not_special 'x' (hall 'x' (by simp [heq.2]))
      exact absurd rfl this.2.2.2.1
    · rename_i heq
      simp at heq
      have := decimal_not_special 'X' (hall 'X' (by simp [heq.2]))
      exact absurd rfl this.2.2.2.2
    · rfl
  have htake : List.takeWhile (isRadixDigit 10) (c :: t) = c :: t := by
    rw [List.takeWhile_eq_self_iff]
    exact hall
  constructor
  · simp [parseIntChars, hdrop, hsign, hradix, htake]
  · have hminus : isStrWhiteSpace '-' = false := by decide
    have hdrop2 : List.dropWhile isStrWhiteSpace ('-' :: c :: t) = '-' :: c :: t := by
      simp [List.dropWhile, hminus]
    have hsign2 : splitSign ('-' :: c :: t) = (true, c :: t) := rfl
    simp [parseIntChars, hdrop2, hsign2, hradix, htake]

/-! ## Doubles below `2 ^ 53` -/

theorem bitLen_le (fuel : Nat) : ∀ m k : Nat, m < 2 ^ k → bitLen fuel m ≤ k := by
  induction fuel with
  | zero => intro m k _; simp [bitLen]
  | succ fuel ih =>
    intro m k h
    unfold bitLen
    by_cases hm : m = 0
    · simp [hm]
    · simp only [hm, if_false]
      cases k with
      | zero => simp at h; omega
      | succ k =>
        have : m / 2 < 2 ^ k := by
          rw [Nat.div_lt_iff_lt_mul (by decide)]
          rw [Nat.pow_succ] at h
          exact h
        have := ih (m / 2) k this
        omega

theorem roundNat_safe (m : Nat) (h : m < 9007199254740992) : roundNat m = m := by
  simp [roundNat, h]

theorem ofInt_safe (i : Int) (h : i.natAbs < 9007199254740992) : JSNum.ofInt i = .int i := by
  have hb : bitLength i.natAbs ≤ 53 := bitLen_le _ _ 53 (by simpa using h)
  unfold JSNum.ofInt
  rw [roundNat_safe _ h]
  have : ¬ 1024 < bitLength i.natAbs := by omega
  simp only [this, if_false]
  split_ifs with hneg
  · congr 1; omega
  · congr 1; omega

theorem natToStr_safe (m : Nat) (h : m < 9007199254740992) : natToStr m = Nat.repr m := by
  simp [natToStr, h]

/-- The round trip `parseInt(String(i)) = i` on integers below `2 ^ 53`. -/
theorem parseInt_int (i : Int) (hs : i.natAbs < 9007199254740992) :
    parseInt (.num (.int i)) = .int i := by
  obtain ⟨hne, hall, hval⟩ := toDigits_spec i.natAbs
  have h := parseIntChars_decimal _ hne hall
  unfold parseInt
  simp only [JSVal.toStr, JSNum.toStr, natToStr_safe _ hs]
  by_cases hi : i < 0
  · simp only [hi, if_true, String.toList, String.data_append, Nat.repr, List.asString]
    rw [List.singleton_append, h.2, hval]
    have : (-(i.natAbs : Int)) = i := by omega
    rw [this]
    exact ofInt_safe i hs
  · simp only [hi, if_false, String.toList, Nat.repr, List.asString]
    rw [h.1, hval]
    have : ((i.natAbs : Nat) : Int) = i := by omega
    rw [this]
    exact ofInt_safe i hs

theorem renderBig_ne_nil (m : Nat) : renderBig m ≠ [] := by
  unfold renderBig
  simp only
  have hne := (toDigits_spec (shortestDecimal m (Nat.toDigits 10 m).length).1).1
  split_ifs
  · simp [hne]
  · split <;> simp

theorem natToStr_ne_empty (m : Nat) : natToStr m ≠ "" := by
  intro h
  have hd := congrArg String.data h
  unfold natToStr at hd
  split_ifs at hd
  · simp only [Nat.repr, List.asString] at hd
    exact (toDigits_spec m).1 hd
  · exact renderBig_ne_nil m hd

theorem toStr_int_ne_empty (n : Int) : (JSNum.int n).toStr ≠ "" := by
  intro h
  have hd := congrArg String.data h
  simp only [JSNum.toStr] at hd
  split_ifs at hd
  · simp [String.data_append] at hd
  · exact natToStr_ne_empty _ (String.ext hd)

theorem parseInt_isInteger (v : JSVal) (n : Int) (h : v.IsInteger n) :
    parseInt v = .int n := by
  obtain ⟨hs, rfl | rfl⟩ := h
  · exact parseInt_int n hs
  · exact parseInt_int n hs

/-- The summand `parseInt(v || 0)` of an integer value is that integer. -/
theorem parseInt_or_zero_isInteger (v : JSVal) (n : Int) (h : v.IsInteger n) :
    parseInt (v.or zero) = .int n := by
  by_cases ht : v.truthy = true
  · simp only [JSVal.or, ht, if_true]
    exact parseInt_isInteger v n h
  · obtain ⟨hs, rfl | rfl⟩ := h
    · simp only [JSVal.truthy, decide_eq_true_eq, ne_eq, not_not] at ht
      subst ht
      decide
    · exact absurd (by simpa [JSVal.truthy] using toStr_int_ne_empty n) ht

theorem add_int_int (a b : Int) (h : (a + b).natAbs < 9007199254740992) :
    (JSNum.int a).add (.int b) = .int (a + b) := ofInt_safe _ h

/-- A reduction that adds integers whose magnitudes sum below `2 ^ 53` is exact. -/
theorem foldl_add_int (f : α → JSNum) (g : α → Int) (l : List α)
    (h : ∀ a ∈ l, f a = .int (g a)) (acc : Int)
    (hs : acc.natAbs + (l.map (fun a => (g a).natAbs)).sum < 9007199254740992) :
    l.foldl (fun (sum : JSNum) a => sum.add (f a)) (.int acc) = .int (acc + (l.map g).sum) := by
  induction l generalizing acc with
  | nil => simp
  | cons a l ih =>
    have ha := h a (by simp)
    simp only [List.map_cons, List.sum_cons] at hs
    have hstep : (acc + g a).natAbs < 9007199254740992 := by omega
    rw [List.foldl_cons, ha, add_int_int _ _ hstep,
      ih (fun b hb => h b (by simp [hb])) _ (by omega), List.map_cons, List.sum_cons]
    congr 1
    omega

theorem add_nan_right (x : JSNum) : x.add .nan = .nan := by
  cases x <;> rfl

theorem foldl_add_nan (f : α → JSNum) (l : List α) :
    l.foldl (fun (sum : JSNum) a => sum.add (f a)) .nan = .nan := by
  induction l with
  | nil => rfl
  | cons a l ih => simpa [List.foldl_cons, JSNum.add] using ih

/-- A summand that is `NaN` makes the whole reduction `NaN`. -/
theorem foldl_add_of_nan_mem (f : α → JSNum) (l : List α) (a : α) (ha : a ∈ l)
    (hf : f a = .nan) (acc : JSNum) :
    l.foldl (fun (sum : JSNum) a => sum.add (f a)) acc = .nan := by
  induction l generalizing acc with
  | nil => simp at ha
  | cons b l ih =>
    simp only [List.foldl_cons]
    rcases List.mem_cons.1 ha with rfl | h
    · rw [hf, add_nan_right]
      exact foldl_add_nan f l
    · exact ih h _

/-! ## Doubles from `2 ^ 53` on -/

theorem bitLen_spec (fuel : Nat) : ∀ m : Nat, m ≠ 0 → m ≤ fuel →
    2 ^ (bitLen fuel m - 1) ≤ m ∧ m < 2 ^ bitLen fuel m ∧ 1 ≤ bitLen fuel m := by
  induction fuel with
  | zero => intro m h0 h; omega
  | succ fuel ih =>
    intro m h0 h
    unfold bitLen
    simp only [h0, if_false, Nat.add_sub_cancel]
    by_cases h2 : m / 2 = 0
    · have h1 : m = 1 := by omega
      subst h1
      have : bitLen fuel 0 = 0 := by cases fuel <;> simp [bitLen]
      simp [this]
    · obtain ⟨ha, hb, hc⟩ := ih (m / 2) h2 (by omega)
      refine ⟨?_, ?_, by omega⟩
      · have : 2 ^ bitLen fuel (m / 2) = 2 ^ (bitLen fuel (m / 2) - 1) * 2 := by
          rw [← Nat.pow_succ]
          congr 1
          omega
        rw [this]
        omega
      · rw [Nat.pow_succ]
        omega

theorem bitLength_spec (m : Nat) (h0 : m ≠ 0) :
    2 ^ (bitLength m - 1) ≤ m ∧ m < 2 ^ bitLength m ∧ 1 ≤ bitLength m :=
  bitLen_spec m m h0 (le_refl m)

theorem bitLength_eq (m k : Nat) (h1 : 2 ^ k ≤ m) (h2 : m < 2 ^ (k + 1)) :
    bitLength m = k + 1 := by
  have h0 : m ≠ 0 := by
    have := Nat.pow_pos (n := k) (by decide : 0 < 2)
    omega
  obtain ⟨ha, hb, hc⟩ := bitLength_spec m h0
  have hx : k < bitLength m := by
    have := lt_of_le_of_lt h1 hb
    exact (Nat.pow_lt_pow_iff_right (by decide : 1 < 2)).1 this
  have hy : bitLength m - 1 < k + 1 := by
    have := lt_of_le_of_lt ha h2
    exact (Nat.pow_lt_pow_iff_right (by decide : 1 < 2)).1 this
  omega

/-- A 53-bit significand times a power of two is a double: rounding keeps it. -/
theorem roundNat_scaled (q e : Nat) (hq1 : 4503599627370496 ≤ q) (hq2 : q ≤ 9007199254740992)
    (he : 1 ≤ e) : roundNat (q * 2 ^ e) = q * 2 ^ e := by
  have hpos : 0 < 2 ^ e := Nat.pow_pos (by decide)
  have h2e : 2 ≤ 2 ^ e := by
    calc 2 = 2 ^ 1 := rfl
      _ ≤ 2 ^ e := Nat.pow_le_pow_right (by decide) he
  have hbig : ¬ q * 2 ^ e < 9007199254740992 := by
    have : 4503599627370496 * 2 ≤ q * 2 ^ e := Nat.mul_le_mul hq1 h2e
    omega
  have hpm : 0 < 2 ^ (e - 1) := Nat.pow_pos (by decide)
  unfold roundNat
  simp only [hbig, if_false]
  by_cases hq : q < 9007199254740992
  · have hb : bitLength (q * 2 ^ e) = 52 + e + 1 := by
      apply bitLength_eq
      · rw [Nat.pow_add]
        exact Nat.mul_le_mul_right _ hq1
      · have : 2 ^ (52 + e + 1) = 9007199254740992 * 2 ^ e := by
          rw [show 52 + e + 1 = 53 + e by omega, Nat.pow_add]
        rw [this]
        exact Nat.mul_lt_mul_of_pos_right hq hpos
    have he2 : 52 + e + 1 - 53 = e := by omega
    simp only [hb, he2, Nat.mul_div_cancel _ hpos, Nat.mul_mod_left]
    have h1 : ¬ 2 ^ (e - 1) < 0 := by omega
    have h2 : ¬ (0 = 2 ^ (e - 1) ∧ q % 2 = 1) := by omega
    simp [h1, h2]
  · have hq3 : q = 9007199254740992 := by omega
    subst hq3
    have hx : 9007199254740992 * 2 ^ e = 4503599627370496 * 2 ^ (e + 1) := by
      rw [Nat.pow_succ]
      omega
    have hpos2 : 0 < 2 ^ (e + 1) := Nat.pow_pos (by decide)
    have hb : bitLength (9007199254740992 * 2 ^ e) = 53 + e + 1 := by
      apply bitLength_eq
      · rw [Nat.pow_add]
      · rw [show 53 + e + 1 = 54 + e by omega, Nat.pow_add]
        exact Nat.mul_lt_mul_of_pos_right (by decide) hpos
    have he2 : 53 + e + 1 - 53 = e + 1 := by omega
    simp only [hb, he2]
    rw [hx]
    simp only [Nat.mul_div_cancel _ hpos2, Nat.mul_mod_left, Nat.add_sub_cancel]
    have h1 : ¬ 2 ^ e < 0 := by omega
    have h2 : ¬ (0 = 2 ^ e ∧ 4503599627370496 % 2 = 1) := by omega
    simp [h1, h2]

/-- Rounding gives a 53-bit significand times a power of two. -/
theorem roundNat_big (m : Nat) (h : ¬ m < 9007199254740992) :
    ∃ q e : Nat, 4503599627370496 ≤ q ∧ q ≤ 9007199254740992 ∧ 1 ≤ e ∧
      roundNat m = q * 2 ^ e := by
  have h0 : m ≠ 0 := by omega
  obtain ⟨ha, hb, _⟩ := bitLength_spec m h0
  have hlen : 53 < bitLength m := by
    have : 2 ^ 53 < 2 ^ bitLength m := lt_of_le_of_lt (by simpa using h) hb
    exact (Nat.pow_lt_pow_iff_right (by decide : 1 < 2)).1 this
  have hpos : 0 < 2 ^ (bitLength m - 53) := Nat.pow_pos (by decide)
  have hq1 : 4503599627370496 ≤ m / 2 ^ (bitLength m - 53) := by
    rw [Nat.le_div_iff_mul_le hpos]
    have : 2 ^ (bitLength m - 1) = 4503599627370496 * 2 ^ (bitLength m - 53) := by
      rw [show bitLength m - 1 = 52 + (bitLength m - 53) by omega, Nat.pow_add]
    rw [← this]
    exact ha
  have hq2 : m / 2 ^ (bitLength m - 53) < 9007199254740992 := by
    rw [Nat.div_lt_iff_lt_mul hpos]
    have : 2 ^ bitLength m = 9007199254740992 * 2 ^ (bitLength m - 53) := by
      conv_lhs => rw [show bitLength m = 53 + (bitLength m - 53) by omega, Nat.pow_add]
    rw [← this]
    exact hb
  unfold roundNat
  simp only [h, if_false]
  split_ifs
  · exact ⟨_, _, by omega, by omega, by omega, rfl⟩
  · exact ⟨_, _, hq1, by omega, by omega, rfl⟩

theorem roundNat_idem (m : Nat) : roundNat (roundNat m) = roundNat m := by
  by_cases h : m < 9007199254740992
  · rw [roundNat_safe m h, roundNat_safe m h]
  · obtain ⟨q, e, h1, h2, h3, h4⟩ := roundNat_big m h
    rw [h4]
    exact roundNat_scaled q e h1 h2 h3

/-- An integer Number value is a double of finite magnitude. -/
theorem ofInt_int (x i : Int) (h : JSNum.ofInt x = .int i) :
    roundNat i.natAbs = i.natAbs ∧ bitLength i.natAbs ≤ 1024 := by
  unfold JSNum.ofInt at h
  split_ifs at h with h1 h2
  · have hi : i.natAbs = roundNat x.natAbs := by
      have := JSNum.int.inj h
      omega
    rw [hi]
    exact ⟨roundNat_idem _, by omega⟩
  · have hi : i.natAbs = roundNat x.natAbs := by
      have := JSNum.int.inj h
      omega
    rw [hi]
    exact ⟨roundNat_idem _, by omega⟩

theorem ofInt_double (m : Nat) (hr : roundNat m = m) (hb : bitLength m ≤ 1024) :
    JSNum.ofInt (m : Int) = .int m ∧ JSNum.ofInt (-(m : Int)) = .int (-(m : Int)) := by
  unfold JSNum.ofInt
  simp only [Int.natAbs_ofNat, Int.natAbs_neg, hr]
  have : ¬ 1024 < bitLength m := by omega
  simp only [this, if_false]
  constructor
  · have : ¬ (m : Int) < 0 := by omega
    simp [this]
  · split_ifs
    · rfl
    · congr 1
      omega

/-- Parsing a run of decimal digits followed by a character that is neither a
digit nor part of a radix prefix gives the Number value of the digits. -/
theorem parseIntChars_digits (c : Char) (t rest : List Char)
    (hall : ∀ d ∈ c :: t, IsDecimal d) (hrest : ∀ d, rest.head? = some d → ¬ IsDecimal d)
    (hx : ∀ u, c :: (t ++ rest) ≠ '0' :: 'x' :: u)
    (hX : ∀ u, c :: (t ++ rest) ≠ '0' :: 'X' :: u) :
    parseIntChars (c :: (t ++ rest)) = JSNum.ofInt (digitsValue 10 (c :: t)) ∧
      parseIntChars ('-' :: c :: (t ++ rest))
        = JSNum.ofInt (-(digitsValue 10 (c :: t) : Int)) := by
  have hc := decimal_not_special c (hall c (by simp))
  have hdrop : List.dropWhile isStrWhiteSpace (c :: (t ++ rest)) = c :: (t ++ rest) := by
    simp [List.dropWhile, hc.1]
  have hsign : splitSign (c :: (t ++ rest)) = (false, c :: (t ++ rest)) := by
    unfold splitSign
    split
    · rename_i heq; simp at heq; exact absurd heq.1 hc.2.1
    · rename_i heq; simp at heq; exact absurd heq.1 hc.2.2.1
    · rfl
  have hradix : splitRadix (c :: (t ++ rest)) = (10, c :: (t ++ rest)) := by
    unfold splitRadix
    split
    · rename_i u heq
      exact absurd heq (hx u)
    · rename_i u heq
      exact absurd heq (hX u)
    · rfl
  have htake : List.takeWhile (isRadixDigit 10) (c :: (t ++ rest)) = c :: t := by
    rw [← List.cons_append, List.takeWhile_append_of_pos hall]
    cases rest with
    | nil => simp
    | cons r rest =>
      have := hrest r rfl
      unfold IsDecimal at this
      simp [List.takeWhile, this]
  constructor
  · simp [parseIntChars, hdrop, hsign, hradix, htake]
  · have hminus : isStrWhiteSpace '-' = false := by decide
    have hdrop2 : List.dropWhile isStrWhiteSpace ('-' :: c :: (t ++ rest))
        = '-' :: c :: (t ++ rest) := by
      simp [List.dropWhile, hminus]
    have hsign2 : splitSign ('-' :: c :: (t ++ rest)) = (true, c :: (t ++ rest)) := rfl
    simp [parseIntChars, hdrop2, hsign2, hradix, htake]

theorem shortestDecimal_spec (m : Nat) (z : Nat) :
    (shortestDecimal m z).1 * 10 ^ (shortestDecimal m z).2 = m ∨
    roundNat ((shortestDecimal m z).1 * 10 ^ (shortestDecimal m z).2) = m := by
  induction z with
  | zero => left; simp [shortestDecimal]
  | succ z ih =>
    rw [shortestDecimal]
    simp only [Bool.and_eq_true, decide_eq_true_eq]
    split_ifs with h1 h2 h3 h4 h5 h6
    · exact Or.inr h1.1.2
    · exact Or.inr h1.2
    · exact Or.inr h1.1.2
    · exact Or.inr h1.2
    · exact Or.inr h5.2
    · exact Or.inr h6
    · exact ih

theorem digitsValue_zeros (ds : List Char) (z : Nat) :
    digitsValue 10 (ds ++ List.replicate z '0') = digitsValue 10 ds * 10 ^ z := by
  induction z with
  | zero => simp
  | succ z ih =>
    rw [List.replicate_succ', ← List.append_assoc, digitsValue_append, ih, Nat.pow_succ]
    have : (digitValue '0').getD 0 = 0 := by decide
    rw [this]
    ring

theorem digitValue_lt_of_decimal (d : Char) (h : IsDecimal d) :
    ∃ v : Nat, digitValue d = some v ∧ v < 10 := by
  unfold IsDecimal isRadixDigit at h
  cases hv : digitValue d with
  | none => simp [hv] at h
  | some v => exact ⟨v, rfl, by simpa [hv] using h⟩

/-- The text of a double from `2 ^ 53` on is read back by `parseInt` as the
double itself when it is written in plain digits, and as its first digit when
it is written with an exponent. -/
theorem parseIntChars_renderBig (m : Nat) (hr : roundNat m = m) (hb : bitLength m ≤ 1024) :
    (parseIntChars (renderBig m) = .int m ∧
      parseIntChars ('-' :: renderBig m) = .int (-(m : Int))) ∨
    ∃ d : Nat, d < 10 ∧ parseIntChars (renderBig m) = .int d ∧
      parseIntChars ('-' :: renderBig m) = .int (-(d : Int)) := by
  unfold renderBig
  simp only
  generalize hp : shortestDecimal m (Nat.toDigits 10 m).length = p
  have hspec := shortestDecimal_spec m (Nat.toDigits 10 m).length
  rw [hp] at hspec
  obtain ⟨hne, hall, hval⟩ := toDigits_spec p.1
  split_ifs with hlen
  · left
    have hne2 : Nat.toDigits 10 p.1 ++ List.replicate p.2 '0' ≠ [] := by simp [hne]
    have hall2 : ∀ c ∈ Nat.toDigits 10 p.1 ++ List.replicate p.2 '0', IsDecimal c := by
      intro c hc
      rcases List.mem_append.1 hc with h | h
      · exact hall c h
      · rw [List.eq_of_mem_replicate h]
        unfold IsDecimal
        decide
    have h := parseIntChars_decimal _ hne2 hall2
    rw [digitsValue_zeros, hval] at h
    have hof : JSNum.ofInt ((p.1 * 10 ^ p.2 : Nat) : Int) = .int m ∧
        JSNum.ofInt (-((p.1 * 10 ^ p.2 : Nat) : Int)) = .int (-(m : Int)) := by
      rcases hspec with h1 | h1
      · rw [h1]
        exact ofInt_double m hr hb
      · unfold JSNum.ofInt
        simp only [Int.natAbs_ofNat, Int.natAbs_neg, h1]
        have : ¬ 1024 < bitLength m := by omega
        simp only [this, if_false]
        constructor
        · have : ¬ ((p.1 * 10 ^ p.2 : Nat) : Int) < 0 := by omega
          rw [if_neg this]
        · split_ifs
          · rfl
          · have hm0 : m = 0 := by
              by_contra hm
              have : p.1 * 10 ^ p.2 = 0 := by omega
              rw [this] at h1
              exact hm (by simpa [roundNat] using h1.symm)
            subst hm0
            rfl
    rw [h.1, h.2]
    exact hof
  · right
    have hsafe : ∀ v : Nat, v < 10 → JSNum.ofInt (v : Int) = .int v ∧
        JSNum.ofInt (-(v : Int)) = .int (-(v : Int)) := by
      intro v hv
      exact ⟨ofInt_safe _ (by omega), ofInt_safe _ (by omega)⟩
    have hone : ∀ (d : Char) (rest : List Char), IsDecimal d →
        (∀ c, rest.head? = some c → ¬ IsDecimal c ∧ c ≠ 'x' ∧ c ≠ 'X') →
        ∃ v : Nat, v < 10 ∧ parseIntChars (d :: rest) = .int v ∧
          parseIntChars ('-' :: d :: rest) = .int (-(v : Int)) := by
      intro d rest hd hrest
      obtain ⟨v, hv, hlt⟩ := digitValue_lt_of_decimal d hd
      have := parseIntChars_digits d [] rest (by simpa using hd)
        (fun c hc => (hrest c hc).1)
        (by
          intro u h
          simp only [List.nil_append, List.cons.injEq] at h
          cases rest with
          | nil => simp at h
          | cons r rest =>
            have := (hrest r rfl).2.1
            simp only [List.cons.injEq] at h
            exact this h.2.1)
        (by
          intro u h
          simp only [List.nil_append, List.cons.injEq] at h
          cases rest with
          | nil => simp at h
          | cons r rest =>
            have := (hrest r rfl).2.2
            simp only [List.cons.injEq] at h
            exact this h.2.1)
      simp only [List.nil_append] at this
      have hdv : digitsValue 10 [d] = v := by
        simp [digitsValue, hv]
      rw [hdv] at this
      exact ⟨v, hlt, this.1.trans (hsafe v hlt).1, this.2.trans (hsafe v hlt).2⟩
    split
    · rename_i heq
      exact absurd heq hne
    · rename_i d heq
      have hd : IsDecimal d := hall d (by simp [heq])
      exact hone d _ hd (by
        intro c hc
        simp only [List.head?_cons, Option.some.injEq] at hc
        subst hc
        refine ⟨?_, by decide, by decide⟩
        unfold IsDecimal
        decide)
    · rename_i d rest hrne heq
      have hd : IsDecimal d := hall d (by simp [heq])
      simp only [List.cons_append]
      exact hone d _ hd (by
        intro c hc
        simp only [List.head?_cons, Option.some.injEq] at hc
        subst hc
        refine ⟨?_, by decide, by decide⟩
        unfold IsDecimal
        decide)

/-- What `parseInt` reads back from a double: the double itself, or the first
digit of its exponent text (for magnitudes from `2 ^ 53` on). -/
theorem parseInt_double (i : Int) (hr : roundNat i.natAbs = i.natAbs)
    (hb : bitLength i.natAbs ≤ 1024) :
    parseInt (.num (.int i)) = .int i ∨
    (9007199254740992 ≤ i.natAbs ∧ ∃ d : Nat, d < 10 ∧
      parseInt (.num (.int i)) = .int (if i < 0 then -(d : Int) else d)) := by
  by_cases hs : i.natAbs < 9007199254740992
  · exact Or.inl (parseInt_int i hs)
  · have hn : natToStr i.natAbs = String.mk (renderBig i.natAbs) := by simp [natToStr, hs]
    have hbig := parseIntChars_renderBig i.natAbs hr hb
    unfold parseInt
    simp only [JSVal.toStr, JSNum.toStr, hn]
    by_cases hi : i < 0
    · simp only [hi, if_true, String.toList, String.data_append]
      have hm : (-(i.natAbs : Int)) = i := by omega
      rcases hbig with h | ⟨d, hd, h⟩
      · left
        show parseIntChars ('-' :: renderBig i.natAbs) = _
        rw [h.2, hm]
      · right
        refine ⟨by omega, d, hd, ?_⟩
        show parseIntChars ('-' :: renderBig i.natAbs) = _
        exact h.2
    · simp only [hi, if_false, String.toList]
      have hm : ((i.natAbs : Nat) : Int) = i := by omega
      rcases hbig with h | ⟨d, hd, h⟩
      · left
        rw [h.1, hm]
      · right
        exact ⟨by omega, d, hd, h.1⟩

/-! ## The criteria-sum check of the Forms page -/

theorem totalPoints_of_integers (fd : Forms.FormDraft) (pts : List Int)
    (hC : List.Forall₂ (fun c n => JSVal.IsInteger (Forms.DraftCriterion.max_points c) n)
      fd.criteria pts)
    (hs : (pts.map Int.natAbs).sum < 9007199254740992) :
    Forms.totalPoints fd = .int pts.sum := by
  unfold Forms.totalPoints
  generalize fd.criteria = cs at hC
  suffices h : ∀ acc : Int, acc.natAbs + (pts.map Int.natAbs).sum < 9007199254740992 →
      cs.foldl (fun (sum : JSNum) c => sum.add (Forms.criterionPoints c)) (JSNum.int acc)
        = JSNum.int (acc + pts.sum) by simpa using h 0 (by simpa using hs)
  clear hs
  induction hC with
  | nil => intro acc _; simp
  | cons hab _ ih =>
    intro acc hacc
    simp only [List.map_cons, List.sum_cons] at hacc
    rw [List.foldl_cons,
      show Forms.criterionPoints _ = JSNum.int _ from parseInt_or_zero_isInteger _ _ hab,
      add_int_int _ _ (by omega), ih _ (by omega), List.sum_cons]
    congr 1
    omega

/-- C1, as stated, fails in both directions. The criteria worth
9007199254740991 and 2 pass the criteria-sum check against the max score
9007199254740992, and `formsAPI.create` is called, although the max points do
not add up to the max score: the check adds Number values, and
9007199254740991 + 2 rounds to 9007199254740992. And one criterion worth 100
fails the check against the max score typed as `1e2` (the number 100), which
`parseInt` reads as 1. -/
theorem rounded_sum_passes_check :
    (roundedSumDraft false).formData.criteria.map (fun c => c.max_points)
      = [.str "9007199254740991", .str "2"] ∧
    (roundedSumDraft false).formData.max_score = .str "9007199254740992" ∧
    (9007199254740991 + 2 : Int) ≠ 9007199254740992 ∧
    Forms.totalPoints (roundedSumDraft false).formData = .int 9007199254740992 ∧
    Forms.criteriaSumMismatch (roundedSumDraft false).formData = false ∧
    (Forms.handleSubmit (roundedSumDraft false) .success).2.head?
      = some (.apiCreate (Forms.submitData (roundedSumDraft false).formData)) ∧
    Forms.totalPoints (exponentScoreDraft (.str "100")).formData = .int 100 ∧
    parseInt (exponentScoreDraft (.str "100")).formData.max_score = .int 1 ∧
    (Forms.handleSubmit (exponentScoreDraft (.str "100")) .success).2
      = [.alert "Criteria points (100) must sum to max score (1e2)"] := by
  decide

/-- C1, amended. For a draft whose criteria max_points and max_score hold
integers of magnitude below 2^53 (as numbers or as their plain decimal texts),
with the magnitudes of the max_points adding up to less than 2^53, the
criteria-sum check of `Forms.handleSubmit` passes exactly when the max_points
add up to the max_score, and the early-return alert branch is taken exactly
when they do not. -/
theorem criteria_sum_check_iff (s : Forms.State) (api : ApiOutcome) (pts : List Int) (T : Int)
    (hC : List.Forall₂ (fun c n => JSVal.IsInteger (Forms.DraftCriterion.max_points c) n)
      s.formData.criteria pts)
    (hT : s.formData.max_score.IsInteger T)
    (hs : (pts.map Int.natAbs).sum < 9007199254740992) :
    (Forms.criteriaSumMismatch s.formData = false ↔ pts.sum = T) ∧
    ((Forms.handleSubmit s api).2 = [.alert (Forms.mismatchMessage s.formData)]
      ↔ pts.sum ≠ T) := by
  have hm : Forms.criteriaSumMismatch s.formData = false ↔ pts.sum = T := by
    simp [Forms.criteriaSumMismatch, totalPoints_of_integers _ _ hC hs,
      parseInt_isInteger _ _ hT, JSNum.strictNe, JSNum.strictEq]
  refine ⟨hm, ?_⟩
  by_cases hs : pts.sum = T
  · have hf := hm.2 hs
    simp only [Forms.handleSubmit, hf, Bool.false_eq_true, if_false, ne_eq, hs,
      not_true_eq_false, iff_false]
    cases api <;> simp [Forms.apiCall]
  · have ht : Forms.criteriaSumMismatch s.formData = true := by
      cases h : Forms.criteriaSumMismatch s.formData
      · exact absurd (hm.1 h) hs
      · rfl
    simp [Forms.handleSubmit, ht, hs]

theorem criteria_sum_check_iff_witness :
    Forms.criteriaSumMismatch (exampleDraft (.str "25") false).formData = false ∧
    (Forms.handleSubmit (exampleDraft (.num (.int 30)) false) .success).2
      = [.alert "Criteria points (25) must sum to max score (30)"] :=
  ⟨(criteria_sum_check_iff (exampleDraft (.str "25") false) .success [10, 15] 25
      (List.Forall₂.cons ⟨by decide, Or.inl rfl⟩
        (List.Forall₂.cons ⟨by decide, Or.inr (by decide)⟩ List.Forall₂.nil))
      ⟨by decide, Or.inr (by decide)⟩ (by decide)).1.2 (by decide),
   (criteria_sum_check_iff (exampleDraft (.num (.int 30)) false) .success [10, 15] 30
      (List.Forall₂.cons ⟨by decide, Or.inl rfl⟩
        (List.Forall₂.cons ⟨by decide, Or.inr (by decide)⟩ List.Forall₂.nil))
      ⟨by decide, Or.inl rfl⟩ (by decide)).2.2 (by decide)⟩

/-- C5, as stated, fails: on the draft with the criteria worth
9007199254740991 and 2 and the max score 9007199254740992 the sum of the
criteria points differs from the max score, yet `Forms.handleSubmit` calls
`formsAPI.create` in create mode and `formsAPI.update` in edit mode, and on
success it resets the draft and closes the modal. Likewise one criterion worth
1 against the max score typed as `1e2` (the number 100): `formsAPI.create` is
called, with the max score 1. -/
theorem unequal_sum_reaches_api :
    (9007199254740991 + 2 : Int) ≠ 9007199254740992 ∧
    (Forms.handleSubmit (roundedSumDraft false) .success).2.head?
      = some (.apiCreate (Forms.submitData (roundedSumDraft false).formData)) ∧
    (Forms.handleSubmit (roundedSumDraft true) .success).2.head?
      = some (.apiUpdate (.num (.int 4)) (Forms.updateData (roundedSumDraft true).formData)) ∧
    (Forms.handleSubmit (roundedSumDraft false) .success).1 ≠ roundedSumDraft false ∧
    (Forms.handleSubmit (roundedSumDraft true) .success).1 ≠ roundedSumDraft true ∧
    (Forms.handleSubmit (exponentScoreDraft (.str "1")) .success).2.head?
      = some (.apiCreate (Forms.submitData (exponentScoreDraft (.str "1")).formData)) ∧
    (Forms.submitData (exponentScoreDraft (.str "1")).formData).max_score = .int 1 := by
  decide

/-- C5, amended. For a draft whose criteria max_points and max_score hold
integers of magnitude below 2^53, with the magnitudes of the max_points adding
up to less than 2^53: whenever the sum of the criteria points differs from
the max score, `Forms.handleSubmit` leaves the whole state (formData,
isEditing, editingId, showModal) unchanged and issues neither
`formsAPI.create` nor `formsAPI.update`, in create mode and in edit mode,
however the API would have answered. -/
theorem mismatch_blocks_submission (s : Forms.State) (api : ApiOutcome)
    (pts : List Int) (T : Int)
    (hC : List.Forall₂ (fun c n => JSVal.IsInteger (Forms.DraftCriterion.max_points c) n)
      s.formData.criteria pts)
    (hT : s.formData.max_score.IsInteger T)
    (hs : (pts.map Int.natAbs).sum < 9007199254740992)
    (hne : pts.sum ≠ T) :
    (Forms.handleSubmit s api).1 = s ∧
    ∀ e ∈ (Forms.handleSubmit s api).2, e.isApiCall = false := by
  have hm : Forms.criteriaSumMismatch s.formData = true := by
    simpa [Forms.criteriaSumMismatch, totalPoints_of_integers _ _ hC hs,
      parseInt_isInteger _ _ hT, JSNum.strictNe, JSNum.strictEq] using hne
  simp [Forms.handleSubmit, hm, Forms.Effect.isApiCall]

theorem mismatch_blocks_submission_witness :
    ((Forms.handleSubmit (exampleDraft (.num (.int 30)) false) .success).1
        = exampleDraft (.num (.int 30)) false ∧
      ∀ e ∈ (Forms.handleSubmit (exampleDraft (.num (.int 30)) false) .success).2,
        e.isApiCall = false) ∧
    ((Forms.handleSubmit (exampleDraft (.num (.int 30)) true) .success).1
        = exampleDraft (.num (.int 30)) true ∧
      ∀ e ∈ (Forms.handleSubmit (exampleDraft (.num (.int 30)) true) .success).2,
        e.isApiCall = false) :=
  ⟨mismatch_blocks_submission (exampleDraft (.num (.int 30)) false) .success [10, 15] 30
      (List.Forall₂.cons ⟨by decide, Or.inl rfl⟩
        (List.Forall₂.cons ⟨by decide, Or.inr (by decide)⟩ List.Forall₂.nil))
      ⟨by decide, Or.inl rfl⟩ (by decide) (by decide),
   mismatch_blocks_submission (exampleDraft (.num (.int 30)) true) .success [10, 15] 30
      (List.Forall₂.cons ⟨by decide, Or.inl rfl⟩
        (List.Forall₂.cons ⟨by decide, Or.inr (by decide)⟩ List.Forall₂.nil))
      ⟨by decide, Or.inl rfl⟩ (by decide) (by decide)⟩

/-- C8, as stated, fails: a criterion whose max points is the text `abc`
contributes `NaN`, not 0, and the sum of the criteria 10 and `abc` is `NaN`,
not 10. -/
theorem nonnumeric_points_contribute_nan :
    Forms.criterionPoints (criterionWith (.str "abc")) = .nan ∧
    Forms.criterionPoints (criterionWith (.str "abc")) ≠ .int 0 ∧
    Forms.totalPoints { Forms.initialDraft with
      criteria := [criterionWith (.num (.int 10)), criterionWith (.str "abc")] } = .nan := by
  decide

/-- C8, amended. Each criterion contributes `parseInt(max_points || 0)` to the
sum: a falsy max points (undefined, null, the empty string, 0, NaN) contributes
0; a value holding an integer contributes that integer; and a truthy value
with no leading integer (such as the text `abc`) contributes `NaN`, which
makes the whole sum `NaN` and the criteria-sum check fail. -/
theorem criterionPoints_cases :
    (∀ c : Forms.DraftCriterion, c.max_points.truthy = false →
      Forms.criterionPoints c = .int 0) ∧
    (∀ (c : Forms.DraftCriterion) (n : Int), c.max_points.IsInteger n →
      Forms.criterionPoints c = .int n) ∧
    (∀ (fd : Forms.FormDraft) (c : Forms.DraftCriterion), c ∈ fd.criteria →
      c.max_points.truthy = true → parseInt c.max_points = .nan →
      Forms.totalPoints fd = .nan ∧ Forms.criteriaSumMismatch fd = true) := by
  refine ⟨?_, ?_, ?_⟩
  · intro c hc
    simp only [Forms.criterionPoints, JSVal.or, hc, Bool.false_eq_true, if_false]
    exact parseInt_int 0 (by decide)
  · intro c n hn
    exact parseInt_or_zero_isInteger _ _ hn
  · intro fd c hmem ht hnan
    have hc : Forms.criterionPoints c = .nan := by
      simp only [Forms.criterionPoints, JSVal.or, ht, if_true]
      exact hnan
    have htot : Forms.totalPoints fd = .nan :=
      foldl_add_of_nan_mem Forms.criterionPoints fd.criteria c hmem hc _
    refine ⟨htot, ?_⟩
    simp [Forms.criteriaSumMismatch, htot, JSNum.strictNe, JSNum.strictEq]

theorem criterionPoints_cases_witness :
    Forms.criterionPoints (criterionWith .undefined) = .int 0 ∧
    Forms.criterionPoints (criterionWith (.str "")) = .int 0 ∧
    Forms.criterionPoints (criterionWith (.str "15")) = .int 15 ∧
    Forms.criteriaSumMismatch { Forms.initialDraft with
      criteria := [criterionWith (.num (.int 10)), criterionWith (.str "abc")] } = true :=
  ⟨criterionPoints_cases.1 (criterionWith .undefined) (by decide),
   criterionPoints_cases.1 (criterionWith (.str "")) (by decide),
   criterionPoints_cases.2.1 (criterionWith (.str "15")) 15 ⟨by decide, Or.inr (by decide)⟩,
   (criterionPoints_cases.2.2 _ (criterionWith (.str "abc")) (by decide) (by decide)
      (by decide)).2⟩

theorem payloadCriteria_max_points (cs : List Forms.DraftCriterion) :
    (Forms.payloadCriteria cs).map (fun c => c.max_points)
      = cs.map (fun c => parseInt c.max_points) := by
  unfold Forms.payloadCriteria
  rw [List.map_map]
  have : ((fun c : Forms.PayloadCriterion => c.max_points) ∘
      (fun p : Nat × Forms.DraftCriterion =>
        ({ text := p.2.name, description := p.2.description,
           max_points := parseInt p.2.max_points, order_index := p.1 } : Forms.PayloadCriterion)))
      = (fun c : Forms.DraftCriterion => parseInt c.max_points) ∘ Prod.snd := rfl
  rw [this, ← List.map_map, List.enum_map_snd]

theorem map_parseInt_of_integers (cs : List Forms.DraftCriterion) (pts : List Int)
    (hC : List.Forall₂ (fun c n => JSVal.IsInteger (Forms.DraftCriterion.max_points c) n)
      cs pts) :
    cs.map (fun c => parseInt c.max_points) = pts.map JSNum.int := by
  induction hC with
  | nil => rfl
  | cons hab _ ih =>
    simp only [List.map_cons, ih, parseInt_isInteger _ _ hab]

/-- C9, as stated, fails: the create-mode draft with the criteria worth
9007199254740991 and 2 and the max score 9007199254740992 passes the
criteria-sum check, and `formsAPI.create` is called with the criteria max
points 9007199254740991 and 2, whose sum 9007199254740993 is not the
payload's max score 9007199254740992. -/
theorem create_payload_sum_differs :
    Forms.criteriaSumMismatch (roundedSumDraft false).formData = false ∧
    (Forms.handleSubmit (roundedSumDraft false) .success).2.head?
      = some (.apiCreate (Forms.submitData (roundedSumDraft false).formData)) ∧
    (Forms.submitData (roundedSumDraft false).formData).criteria.map (fun c => c.max_points)
      = [.int 9007199254740991, .int 2] ∧
    (Forms.submitData (roundedSumDraft false).formData).max_score = .int 9007199254740992 ∧
    ([9007199254740991, 2] : List Int).sum ≠ 9007199254740992 := by
  decide

/-- C9, amended. For a create-mode draft whose criteria max_points hold
integers of magnitude below 2^53, with the magnitudes adding up to less than
2^53, and which passes the criteria-sum check: `formsAPI.create` is called
with a payload whose criteria max_points are those integers, in order, and
whose max_score is their sum. -/
theorem create_payload_sum_of_integer_draft (s : Forms.State) (api : ApiOutcome)
    (pts : List Int)
    (hC : List.Forall₂ (fun c n => JSVal.IsInteger (Forms.DraftCriterion.max_points c) n)
      s.formData.criteria pts)
    (hs : (pts.map Int.natAbs).sum < 9007199254740992)
    (hmode : s.isEditing = false)
    (hpass : Forms.criteriaSumMismatch s.formData = false) :
    (Forms.handleSubmit s api).2.head? = some (.apiCreate (Forms.submitData s.formData)) ∧
    (Forms.submitData s.formData).criteria.map (fun c => c.max_points) = pts.map JSNum.int ∧
    (Forms.submitData s.formData).max_score = .int pts.sum := by
  refine ⟨?_, ?_, ?_⟩
  · cases api <;> simp [Forms.handleSubmit, hpass, Forms.apiCall, hmode]
  · simp only [Forms.submitData]
    rw [payloadCriteria_max_points, map_parseInt_of_integers _ _ hC]
  · have htot := totalPoints_of_integers _ _ hC hs
    simp only [Forms.criteriaSumMismatch, htot, JSNum.strictNe, Bool.not_eq_false_eq_eq_true
      ] at hpass
    simp only [Forms.submitData]
    cases hp : parseInt s.formData.max_score with
    | int t =>
      rw [hp] at hpass
      simp only [JSNum.strictEq, decide_eq_true_eq] at hpass
      rw [hpass]
    | inf b => rw [hp] at hpass; simp [JSNum.strictEq] at hpass
    | nan => rw [hp] at hpass; simp [JSNum.strictEq] at hpass

theorem create_payload_sum_of_integer_draft_witness :
    (Forms.handleSubmit (exampleDraft (.str "25") false) .success).2.head?
      = some (.apiCreate (Forms.submitData (exampleDraft (.str "25") false).formData)) ∧
    (Forms.submitData (exampleDraft (.str "25") false).formData).criteria.map
      (fun c => c.max_points) = [.int 10, .int 15] ∧
    (Forms.submitData (exampleDraft (.str "25") false).formData).max_score = .int 25 :=
  create_payload_sum_of_integer_draft (exampleDraft (.str "25") false) .success [10, 15]
    (List.Forall₂.cons ⟨by decide, Or.inl rfl⟩
      (List.Forall₂.cons ⟨by decide, Or.inr (by decide)⟩ List.Forall₂.nil))
    (by decide) rfl (by decide)

/-! ## Criterion maxima in the create payload -/

/-- C20, as stated, fails: `handleSubmit` checks only the sum. The create-mode
drafts with max score 10 and criteria points -5 and 15, or 0 and 10, or the
text `0.1e1` and 10, pass the criteria-sum check, and `formsAPI.create` is
called with the criterion maxima -5, 0 and 0. -/
theorem nonpositive_points_pass_check :
    (Forms.handleSubmit (twoPointsDraft (.str "-5") (.str "15")) .success).2.head?
      = some (.apiCreate (Forms.submitData (twoPointsDraft (.str "-5") (.str "15")).formData)) ∧
    (Forms.submitData (twoPointsDraft (.str "-5") (.str "15")).formData).criteria.map
      (fun c => c.max_points) = [.int (-5), .int 15] ∧
    (Forms.handleSubmit (twoPointsDraft (.str "0") (.str "10")) .success).2.head?
      = some (.apiCreate (Forms.submitData (twoPointsDraft (.str "0") (.str "10")).formData)) ∧
    (Forms.submitData (twoPointsDraft (.str "0") (.str "10")).formData).criteria.map
      (fun c => c.max_points) = [.int 0, .int 10] ∧
    (Forms.handleSubmit (twoPointsDraft (.str "0.1e1") (.num (.int 10))) .success).2.head?
      = some (.apiCreate
          (Forms.submitData (twoPointsDraft (.str "0.1e1") (.num (.int 10))).formData)) ∧
    (Forms.submitData (twoPointsDraft (.str "0.1e1") (.num (.int 10))).formData).criteria.map
      (fun c => c.max_points) = [.int 0, .int 10] := by
  decide

/-- C20, amended. `handleSubmit` checks the sum of the criterion maxima, not
each of them: in create mode, for a draft that passes the check and whose
criteria max points hold integers (of magnitude below 2^53),
`formsAPI.create` receives exactly those integers as `max_points`, so every
one of them is an integer of at least 1 provided the draft values are at least
1 (as the `min` of the input asks). -/
theorem create_payload_points_of_integer_draft (s : Forms.State) (api : ApiOutcome)
    (pts : List Int)
    (hC : List.Forall₂ (fun c n => JSVal.IsInteger (Forms.DraftCriterion.max_points c) n)
      s.formData.criteria pts)
    (hcreate : s.isEditing = false)
    (hpass : Forms.criteriaSumMismatch s.formData = false)
    (hpos : ∀ n ∈ pts, 1 ≤ n) :
    (Forms.handleSubmit s api).2.head? = some (.apiCreate (Forms.submitData s.formData)) ∧
    (Forms.submitData s.formData).criteria.map (fun c => c.max_points) = pts.map JSNum.int ∧
    ∀ c ∈ (Forms.submitData s.formData).criteria, ∃ n : Int, c.max_points = .int n ∧ 1 ≤ n := by
  have hmap : (Forms.submitData s.formData).criteria.map (fun c => c.max_points)
      = pts.map JSNum.int := by
    show (Forms.payloadCriteria s.formData.criteria).map _ = _
    rw [payloadCriteria_max_points, map_parseInt_of_integers _ _ hC]
  refine ⟨?_, hmap, ?_⟩
  · cases api <;> simp [Forms.handleSubmit, hpass, Forms.apiCall, hcreate]
  · intro c hc
    have hm : c.max_points ∈ (Forms.submitData s.formData).criteria.map (fun c => c.max_points) :=
      List.mem_map_of_mem (fun c => c.max_points) hc
    rw [hmap] at hm
    obtain ⟨n, hn, hcn⟩ := List.mem_map.1 hm
    exact ⟨n, hcn.symm, hpos n hn⟩

theorem create_payload_points_of_integer_draft_witness :
    (Forms.submitData (twoPointsDraft (.num (.int 4)) (.str "6")).formData).criteria.map
      (fun c => c.max_points) = [.int 4, .int 6] :=
  (create_payload_points_of_integer_draft (twoPointsDraft (.num (.int 4)) (.str "6")) .success
    [4, 6]
    (List.Forall₂.cons ⟨by decide, Or.inl rfl⟩
      (List.Forall₂.cons ⟨by decide, Or.inr (by decide)⟩ List.Forall₂.nil))
    rfl (by decide) (by decide)).2.1


/-! ## The create and update calls of the Forms page -/

theorem apiCreate_mem_handleSubmit (s : Forms.State) (api : ApiOutcome)
    (body : Forms.CreatePayload)
    (h : Forms.Effect.apiCreate body ∈ (Forms.handleSubmit s api).2) :
    body = Forms.submitData s.formData ∧ s.isEditing = false ∧
      Forms.criteriaSumMismatch s.formData = false := by
  unfold Forms.handleSubmit at h
  by_cases hm : Forms.criteriaSumMismatch s.formData = true
  · simp [hm] at h
  · simp only [hm, Bool.false_eq_true, if_false] at h
    have hcall : Forms.Effect.apiCreate body = Forms.apiCall s := by
      cases api <;> simpa using h
    unfold Forms.apiCall at hcall
    by_cases he : s.isEditing = true
    · simp [he] at hcall
    · simp only [he, Bool.false_eq_true, if_false, Forms.Effect.apiCreate.injEq] at hcall
      exact ⟨hcall, by simpa using he, by simpa using hm⟩

theorem payloadCriteria_order_index (cs : List Forms.DraftCriterion) :
    (Forms.payloadCriteria cs).map (fun c => c.order_index) = List.range cs.length := by
  unfold Forms.payloadCriteria
  rw [List.map_map, ← List.enum_map_fst cs]
  rfl

theorem payloadCriteria_texts (cs : List Forms.DraftCriterion) :
    (Forms.payloadCriteria cs).map (fun c => (c.text, c.description))
      = cs.map (fun c => (c.name, c.description)) := by
  unfold Forms.payloadCriteria
  rw [List.map_map]
  conv_rhs => rw [← List.enum_map_snd cs, List.map_map]
  rfl

/-- C21. In every payload that `Forms.handleSubmit` sends to `formsAPI.create`
the criteria are the draft criteria in draft order (same texts and
descriptions, position by position) and the criterion at position `i` has
`order_index` `i`, whatever `order_index` the draft carried; the `order_index`
values are therefore pairwise distinct. -/
theorem create_payload_order_index_is_position (s : Forms.State) (api : ApiOutcome)
    (body : Forms.CreatePayload)
    (h : Forms.Effect.apiCreate body ∈ (Forms.handleSubmit s api).2) :
    body.criteria.map (fun c => c.order_index) = List.range s.formData.criteria.length ∧
    body.criteria.map (fun c => (c.text, c.description))
      = s.formData.criteria.map (fun c => (c.name, c.description)) ∧
    (body.criteria.map (fun c => c.order_index)).Nodup := by
  obtain ⟨rfl, _, _⟩ := apiCreate_mem_handleSubmit s api body h
  have ho : (Forms.submitData s.formData).criteria.map (fun c => c.order_index)
      = List.range s.formData.criteria.length := payloadCriteria_order_index _
  refine ⟨ho, payloadCriteria_texts _, ?_⟩
  rw [ho]
  exact List.nodup_range _

theorem create_payload_order_index_is_position_witness :
    (Forms.submitData (exampleDraft (.str "25") false).formData).criteria.map
        (fun c => c.order_index) = [0, 1] ∧
    (Forms.submitData (exampleDraft (.str "25") false).formData).criteria.map
        (fun c => (c.text, c.description))
      = [(.str "Communication", .str ""), (.str "Teamwork", .str "")] :=
  ⟨(create_payload_order_index_is_position (exampleDraft (.str "25") false) .success
      (Forms.submitData (exampleDraft (.str "25") false).formData) (by decide)).1.trans
      (by decide),
   (create_payload_order_index_is_position (exampleDraft (.str "25") false) .success
      (Forms.submitData (exampleDraft (.str "25") false).formData) (by decide)).2.1.trans
      (by decide)⟩

theorem toStr_isInteger (v : JSVal) (n : Int) (h : v.IsInteger n) :
    v.toStr = (JSNum.int n).toStr := by
  rcases h with ⟨_, rfl | rfl⟩ <;> rfl

/-- C22. When the criteria-sum check fails, `Forms.handleSubmit` alerts
`Criteria points (X) must sum to max score (Y)` where X is the computed sum
and Y the draft's max score; for a draft holding integers of magnitude below
2^53 (the magnitudes of the criteria points adding up to less than 2^53), X is
the decimal text of the sum of the criteria points and Y that of the max
score. -/
theorem mismatch_message_reports_sum_and_target (s : Forms.State) (api : ApiOutcome)
    (hfail : Forms.criteriaSumMismatch s.formData = true) :
    (Forms.handleSubmit s api).2
      = [.alert ("Criteria points (" ++ (Forms.totalPoints s.formData).toStr ++
          ") must sum to max score (" ++ s.formData.max_score.toStr ++ ")")] ∧
    ∀ (pts : List Int) (T : Int),
      List.Forall₂ (fun c n => JSVal.IsInteger (Forms.DraftCriterion.max_points c) n)
        s.formData.criteria pts →
      s.formData.max_score.IsInteger T →
      (pts.map Int.natAbs).sum < 9007199254740992 →
      pts.sum ≠ T ∧
      (Forms.handleSubmit s api).2
        = [.alert ("Criteria points (" ++ (JSNum.int pts.sum).toStr ++
            ") must sum to max score (" ++ (JSNum.int T).toStr ++ ")")] := by
  have h1 : (Forms.handleSubmit s api).2
      = [.alert ("Criteria points (" ++ (Forms.totalPoints s.formData).toStr ++
          ") must sum to max score (" ++ s.formData.max_score.toStr ++ ")")] := by
    simp [Forms.handleSubmit, hfail, Forms.mismatchMessage]
  refine ⟨h1, ?_⟩
  intro pts T hC hT hs
  have htot := totalPoints_of_integers _ _ hC hs
  refine ⟨?_, ?_⟩
  · intro heq
    have : Forms.criteriaSumMismatch s.formData = false := by
      simp [Forms.criteriaSumMismatch, htot, parseInt_isInteger _ _ hT, JSNum.strictNe,
        JSNum.strictEq, heq]
    rw [hfail] at this
    exact absurd this (by decide)
  · rw [h1, htot, toStr_isInteger _ _ hT]

theorem mismatch_message_reports_sum_and_target_witness :
    (Forms.handleSubmit (exampleDraft (.str "30") false) .success).2
      = [.alert "Criteria points (25) must sum to max score (30)"] :=
  (((mismatch_message_reports_sum_and_target (exampleDraft (.str "30") false) .success
      (by decide)).2 [10, 15] 30
      (List.Forall₂.cons ⟨by decide, Or.inl rfl⟩
        (List.Forall₂.cons ⟨by decide, Or.inr (by decide)⟩ List.Forall₂.nil))
      ⟨by decide, Or.inr (by decide)⟩ (by decide)).2).trans (by decide)

set_option maxRecDepth 100000 in
set_option exponentiation.threshold 2000 in
/-- C27, as stated, fails on the max score: the edit-mode draft whose only
criterion and whose max score both hold the text of four hundred nines passes
the criteria-sum check (both sides are `Infinity`), and `formsAPI.update` is
called with the max score `Infinity`, which is not an integer. -/
theorem update_payload_with_infinite_max_score :
    Forms.criteriaSumMismatch overflowDraft.formData = false ∧
    (Forms.handleSubmit overflowDraft .success).2.head?
      = some (.apiUpdate (.num (.int 4))
          { title := .str "Sprint review", description := .str "",
            max_score := .inf false }) := by
  decide

/-- C27, amended. In edit mode, for a draft that passes the criteria-sum
check, `Forms.handleSubmit` calls `formsAPI.update` for the edited form with
the title, the description and the parsed max score; the parsed max score
equals the computed criteria sum and is an integer or, when that sum
overflowed, an infinity (never `NaN`); it is the integer sum of the criteria
points when these are integers of magnitude below 2^53 whose magnitudes add up
to less than 2^53. The body does not depend on the draft's criteria, and
`formsAPI.create` is not called. -/
theorem edit_mode_sends_update_only (s : Forms.State) (api : ApiOutcome)
    (hedit : s.isEditing = true)
    (hpass : Forms.criteriaSumMismatch s.formData = false) :
    (Forms.handleSubmit s api).2.head?
      = some (.apiUpdate s.editingId
          { title := s.formData.title, description := s.formData.description,
            max_score := parseInt s.formData.max_score }) ∧
    parseInt s.formData.max_score = Forms.totalPoints s.formData ∧
    ((∃ n : Int, parseInt s.formData.max_score = .int n) ∨
      (∃ b : Bool, parseInt s.formData.max_score = .inf b)) ∧
    (∀ pts : List Int,
      List.Forall₂ (fun c n => JSVal.IsInteger (Forms.DraftCriterion.max_points c) n)
        s.formData.criteria pts →
      (pts.map Int.natAbs).sum < 9007199254740992 →
      parseInt s.formData.max_score = .int pts.sum) ∧
    (∀ cs : List Forms.DraftCriterion,
      Forms.updateData { s.formData with criteria := cs } = Forms.updateData s.formData) ∧
    (∀ e ∈ (Forms.handleSubmit s api).2.tail, e.isApiCall = false) ∧
    ∀ body : Forms.CreatePayload, Forms.Effect.apiCreate body ∉ (Forms.handleSubmit s api).2 := by
  have heq : parseInt s.formData.max_score = Forms.totalPoints s.formData ∧
      ((∃ n : Int, parseInt s.formData.max_score = .int n) ∨
        (∃ b : Bool, parseInt s.formData.max_score = .inf b)) := by
    unfold Forms.criteriaSumMismatch JSNum.strictNe at hpass
    cases hp : parseInt s.formData.max_score <;>
      cases ht : Forms.totalPoints s.formData <;>
      simp [hp, ht, JSNum.strictEq] at hpass ⊢ <;> exact hpass.symm
  refine ⟨?_, heq.1, heq.2, ?_, fun _ => rfl, ?_, ?_⟩
  · cases api <;> simp [Forms.handleSubmit, hpass, Forms.apiCall, hedit, Forms.updateData]
  · intro pts hC hs
    rw [heq.1, totalPoints_of_integers _ _ hC hs]
  · intro e he
    cases api <;>
      simp [Forms.handleSubmit, hpass] at he <;>
      rcases he with rfl | rfl <;> rfl
  · intro body hb
    have := (apiCreate_mem_handleSubmit s api body hb).2.1
    rw [hedit] at this
    exact absurd this (by decide)

theorem edit_mode_sends_update_only_witness :
    (Forms.handleSubmit (exampleDraft (.str "25") true) .success).2.head?
      = some (.apiUpdate (.num (.int 4))
          { title := .str "", description := .str "", max_score := .int 25 }) :=
  ((edit_mode_sends_update_only (exampleDraft (.str "25") true) .success rfl
      (by decide)).1).trans (by decide)

/-! ## Editing the criteria list -/

theorem filter_enumFrom_ne (cs : List Forms.DraftCriterion) :
    ∀ k i : Nat, ((cs.enumFrom k).filter (fun p => decide (p.1 ≠ k + i))).map (fun p => p.2)
      = cs.eraseIdx i := by
  induction cs with
  | nil => intro k i; simp
  | cons a cs ih =>
    intro k i
    cases i with
    | zero =>
      have hall : (cs.enumFrom (k + 1)).filter (fun p => decide (p.1 ≠ k + 0))
          = cs.enumFrom (k + 1) := by
        rw [List.filter_eq_self]
        intro p hp
        have := List.le_fst_of_mem_enumFrom hp
        simp only [Nat.add_zero, ne_eq, decide_eq_true_eq]
        omega
      simp only [List.enumFrom_cons, List.filter_cons, Nat.add_zero, ne_eq, not_true_eq_false,
        decide_False, Bool.false_eq_true, if_false, List.eraseIdx_cons_zero]
      simp only [Nat.add_zero] at hall
      rw [hall]
      exact List.enumFrom_map_snd (k + 1) cs
    | succ i =>
      have hk : ¬ k = k + (i + 1) := by omega
      have hidx : k + (i + 1) = (k + 1) + i := by omega
      simp only [List.enumFrom_cons, List.filter_cons, ne_eq, hk, not_false_eq_true,
        decide_True, if_true, List.map_cons, List.eraseIdx_cons_succ]
      rw [hidx, ih (k + 1) i]

theorem withoutIndex_eq_eraseIdx (cs : List Forms.DraftCriterion) (index : Nat) :
    Forms.withoutIndex cs index = cs.eraseIdx index := by
  have := filter_enumFrom_ne cs 0 index
  simp only [Nat.zero_add] at this
  exact this

/-- C24. `removeCriterion` leaves the state unchanged when the draft has at
most one criterion; otherwise it changes only the criteria list, from which
exactly the criterion at the given index is removed, the others keeping their
values and order, so that the length decreases by one for an index in range.
It never turns a non-empty criteria list into an empty one. -/
theorem removeCriterion_removes_one (s : Forms.State) (index : Nat) :
    (s.formData.criteria.length ≤ 1 → (Forms.removeCriterion s index).1 = s) ∧
    (1 < s.formData.criteria.length →
      (Forms.removeCriterion s index).1
        = { s with formData := { s.formData with
              criteria := s.formData.criteria.eraseIdx index } } ∧
      (index < s.formData.criteria.length →
        (Forms.removeCriterion s index).1.formData.criteria.length
          = s.formData.criteria.length - 1)) ∧
    (s.formData.criteria ≠ [] → (Forms.removeCriterion s index).1.formData.criteria ≠ []) := by
  have hgt : 1 < s.formData.criteria.length →
      (Forms.removeCriterion s index).1
        = { s with formData := { s.formData with
              criteria := s.formData.criteria.eraseIdx index } } := by
    intro h
    have h2 : ¬ s.formData.criteria.length ≤ 1 := by omega
    simp [Forms.removeCriterion, h2, withoutIndex_eq_eraseIdx]
  refine ⟨?_, ?_, ?_⟩
  · intro h
    simp [Forms.removeCriterion, h]
  · intro h
    refine ⟨hgt h, ?_⟩
    intro hi
    rw [hgt h]
    exact List.length_eraseIdx_of_lt hi
  · intro hne
    by_cases h : s.formData.criteria.length ≤ 1
    · simpa [Forms.removeCriterion, h] using hne
    · have h2 : 1 < s.formData.criteria.length := by omega
      rw [hgt h2]
      intro hnil
      have hlen := List.length_eraseIdx_le s.formData.criteria index
      have := List.length_eraseIdx s.formData.criteria index
      simp only at hnil
      rw [hnil] at this
      simp only [List.length_nil] at this
      split_ifs at this <;> omega

theorem removeCriterion_removes_one_witness :
    (Forms.removeCriterion (exampleDraft (.str "25") false) 0).1.formData.criteria.map
        (fun c => c.name) = [.str "Teamwork"] ∧
    (Forms.removeCriterion (Forms.resetForm (exampleDraft (.str "25") false)) 0).1
      = Forms.resetForm (exampleDraft (.str "25") false) :=
  ⟨(congrArg (fun st : Forms.State => st.formData.criteria.map (fun c => c.name))
      ((removeCriterion_removes_one (exampleDraft (.str "25") false) 0).2.1
        (by decide)).1).trans (by decide),
   (removeCriterion_removes_one (Forms.resetForm (exampleDraft (.str "25") false)) 0).1
      (by decide)⟩

theorem orderIndexes_addCriterion (s : Forms.State) :
    Forms.orderIndexes (Forms.addCriterion s)
      = Forms.orderIndexes s ++ [.num (.int (Forms.orderIndexes s).length)] := by
  simp [Forms.orderIndexes, Forms.addCriterion]

theorem orderIndexes_after_adds (s : Forms.State) (n : Nat) :
    Forms.orderIndexes (Forms.applyEdits (Forms.resetForm s) (List.replicate n .add))
      = (List.range (n + 1)).map (fun i => JSVal.num (.int (i : Nat))) := by
  induction n with
  | zero => rfl
  | succ n ih =>
    rw [List.replicate_succ', Forms.applyEdits, List.foldl_append]
    simp only [List.foldl_cons, List.foldl_nil, Forms.applyEdit]
    have ih2 : Forms.orderIndexes
        (List.foldl Forms.applyEdit (Forms.resetForm s) (List.replicate n .add))
        = (List.range (n + 1)).map (fun i => JSVal.num (.int (i : Nat))) := ih
    rw [orderIndexes_addCriterion, ih2, List.range_succ (n + 1), List.map_append]
    simp

theorem orderIndexes_removeCriterion_sublist (s : Forms.State) (index : Nat) :
    List.Sublist (Forms.orderIndexes (Forms.removeCriterion s index).1) (Forms.orderIndexes s) := by
  unfold Forms.removeCriterion Forms.orderIndexes
  split_ifs
  · exact List.Sublist.refl _
  · simp only [withoutIndex_eq_eraseIdx]
    exact (List.eraseIdx_sublist _ _).map _

theorem orderIndexes_after_removes_sublist (s : Forms.State) (removes : List Nat) :
    List.Sublist
      (Forms.orderIndexes (Forms.applyEdits s (removes.map Forms.DraftEdit.remove)))
      (Forms.orderIndexes s) := by
  induction removes generalizing s with
  | nil => exact List.Sublist.refl _
  | cons i removes ih =>
    simp only [List.map_cons, Forms.applyEdits, List.foldl_cons, Forms.applyEdit]
    exact (ih (Forms.removeCriterion s i).1).trans (orderIndexes_removeCriterion_sublist s i)

/-- C28, as stated, fails: starting from the reset draft, adding two
criteria, removing the first criterion and adding one more leaves the
`order_index` values 1, 2, 2, which are not pairwise distinct. -/
theorem order_index_repeats_after_remove_then_add :
    Forms.orderIndexes
        (Forms.applyEdits (Forms.resetForm (exampleDraft (.str "25") false)) addAfterRemove)
      = [.num (.int 1), .num (.int 2), .num (.int 2)] ∧
    ¬ (Forms.orderIndexes
        (Forms.applyEdits (Forms.resetForm (exampleDraft (.str "25") false))
          addAfterRemove)).Nodup := by
  decide

/-- C28, amended. Starting from the reset draft, after any number of
`addCriterion` calls followed by any sequence of `removeCriterion` calls the
`order_index` values of the draft criteria are pairwise distinct: the
additions number the criteria 0, 1, 2, ... and removals only drop entries. -/
theorem order_index_distinct_adds_then_removes (s : Forms.State) (n : Nat)
    (removes : List Nat) :
    Forms.orderIndexes (Forms.applyEdits (Forms.resetForm s) (List.replicate n .add))
      = (List.range (n + 1)).map (fun i => JSVal.num (.int (i : Nat))) ∧
    (Forms.orderIndexes (Forms.applyEdits (Forms.resetForm s)
      (List.replicate n .add ++ removes.map Forms.DraftEdit.remove))).Nodup := by
  refine ⟨orderIndexes_after_adds s n, ?_⟩
  have hsplit : Forms.applyEdits (Forms.resetForm s)
      (List.replicate n .add ++ removes.map Forms.DraftEdit.remove)
      = Forms.applyEdits (Forms.applyEdits (Forms.resetForm s) (List.replicate n .add))
          (removes.map Forms.DraftEdit.remove) := by
    simp [Forms.applyEdits, List.foldl_append]
  rw [hsplit]
  refine (orderIndexes_after_removes_sublist _ removes).nodup ?_
  rw [orderIndexes_after_adds]
  refine (List.nodup_range (n + 1)).map ?_
  intro a b hab
  simpa using hab


/-! ## Failures on the Forms page -/

/-- C15, at the failing input. When saving or deleting a form fails with a
`detail` that is a list of two field errors, the Forms page alerts the string
conversion of the list itself, `[object Object],[object Object]`, and none of
the entries' messages; with no `detail` it alerts the generic message. -/
theorem forms_alerts_raw_detail_list :
    (Forms.handleSubmit (exampleDraft (.str "25") false) (.failure fieldErrorsError)).2.getLast?
      = some (.alert "[object Object],[object Object]") ∧
    (Forms.handleDelete (.num (.int 4)) true (.failure fieldErrorsError)).getLast?
      = some (.alert "[object Object],[object Object]") ∧
    (Forms.handleSubmit (exampleDraft (.str "25") false) (.failure noDetailError)).2.getLast?
      = some (.alert "Failed to create form") ∧
    (Forms.handleSubmit (exampleDraft (.str "25") true) (.failure noDetailError)).2.getLast?
      = some (.alert "Failed to update form") ∧
    (Forms.handleDelete (.num (.int 4)) true (.failure noDetailError)).getLast?
      = some (.alert "Failed to delete form") := by
  decide


/-! ## Objects: assignment, lookup and enumeration order -/

theorem ownEntries_perm (o : JSObj) : List.Perm (JSObj.ownEntries o) o := by
  unfold JSObj.ownEntries
  have h1 := List.perm_insertionSort indexLe (o.filter (fun e => (arrayIndex? e.1).isSome))
  have h2 : (fun e : String × JSVal => (arrayIndex? e.1).isNone)
      = fun e => !((arrayIndex? e.1).isSome) := by
    funext e
    cases arrayIndex? e.1 <;> rfl
  rw [h2]
  exact (h1.append_right _).trans (List.filter_append_perm _ o)

theorem mem_ownEntries (o : JSObj) (e : String × JSVal) : e ∈ JSObj.ownEntries o ↔ e ∈ o :=
  (ownEntries_perm o).mem_iff

theorem keys_ownEntries_perm (o : JSObj) :
    List.Perm (JSObj.keys (JSObj.ownEntries o)) (JSObj.keys o) :=
  (ownEntries_perm o).map _

theorem keys_set (o : JSObj) (k : String) (v : JSVal) :
    JSObj.keys (JSObj.set o k v) = if k ∈ JSObj.keys o then JSObj.keys o else JSObj.keys o ++ [k] := by
  induction o with
  | nil => simp [JSObj.set, JSObj.keys]
  | cons e o ih =>
    simp only [JSObj.keys] at ih ⊢
    by_cases h : e.1 = k
    · simp [JSObj.set, h]
    · have h2 : ¬ k = e.1 := fun h3 => h h3.symm
      simp only [JSObj.set, h, if_false, List.map_cons, List.mem_cons, h2, false_or, ih]
      split_ifs <;> simp

theorem mem_keys_set (o : JSObj) (k : String) (v : JSVal) (k2 : String) :
    k2 ∈ JSObj.keys (JSObj.set o k v) ↔ k2 = k ∨ k2 ∈ JSObj.keys o := by
  rw [keys_set]
  split_ifs with h
  · constructor
    · exact Or.inr
    · rintro (rfl | h2)
      · exact h
      · exact h2
  · simp [or_comm]

theorem nodup_keys_set (o : JSObj) (k : String) (v : JSVal) (h : (JSObj.keys o).Nodup) :
    (JSObj.keys (JSObj.set o k v)).Nodup := by
  rw [keys_set]
  split_ifs with hk
  · exact h
  · exact List.Nodup.append h (List.nodup_singleton k) (by simpa using hk)

theorem mem_set (o : JSObj) (k : String) (v : JSVal) (e : String × JSVal)
    (h : e ∈ JSObj.set o k v) : e = (k, v) ∨ e ∈ o := by
  induction o with
  | nil => simpa [JSObj.set] using h
  | cons a o ih =>
    by_cases ha : a.1 = k
    · simp only [JSObj.set, ha, if_true, List.mem_cons] at h
      rcases h with h | h
      · exact Or.inl h
      · exact Or.inr (List.mem_cons_of_mem _ h)
    · simp only [JSObj.set, ha, if_false, List.mem_cons] at h
      rcases h with h | h
      · exact Or.inr (by simp [h])
      · rcases ih h with h | h
        · exact Or.inl h
        · exact Or.inr (List.mem_cons_of_mem _ h)

theorem get?_set (o : JSObj) (k : String) (v : JSVal) (k2 : String) :
    JSObj.get? (JSObj.set o k v) k2 = if k2 = k then some v else JSObj.get? o k2 := by
  induction o with
  | nil =>
    by_cases h : k = k2
    · simp [JSObj.set, JSObj.get?, h]
    · have h2 : ¬ k2 = k := fun h3 => h h3.symm
      simp [JSObj.set, JSObj.get?, h, h2]
  | cons a o ih =>
    simp only [JSObj.get?] at ih ⊢
    by_cases ha : a.1 = k
    · by_cases hk : k = k2
      · subst hk
        simp [JSObj.set, ha]
      · have h2 : ¬ k2 = k := fun h3 => hk h3.symm
        have h3 : ¬ a.1 = k2 := fun h4 => hk (ha.symm.trans h4)
        simp [JSObj.set, ha, hk, h2, h3, List.find?_cons]
    · by_cases hk : a.1 = k2
      · have h2 : ¬ k2 = k := fun h3 => ha (hk.trans h3)
        simp [JSObj.set, ha, hk, h2, List.find?_cons]
      · simp only [JSObj.set, ha, if_false, List.find?_cons, hk, decide_False]
        exact ih

theorem get?_of_mem (o : JSObj) (h : (JSObj.keys o).Nodup) (e : String × JSVal) (he : e ∈ o) :
    JSObj.get? o e.1 = some e.2 := by
  induction o with
  | nil => simp at he
  | cons a o ih =>
    simp only [JSObj.keys, List.map_cons, List.nodup_cons] at h
    rcases List.mem_cons.1 he with rfl | he2
    · simp [JSObj.get?, List.find?_cons]
    · have hne : ¬ a.1 = e.1 := by
        intro heq
        exact h.1 (heq ▸ List.mem_map_of_mem (fun e => e.1) he2)
      simp only [JSObj.get?, List.find?_cons, hne, decide_False]
      exact ih h.2 he2

theorem mem_of_get? (o : JSObj) (k : String) (v : JSVal) (h : JSObj.get? o k = some v) :
    (k, v) ∈ o := by
  simp only [JSObj.get?, Option.map_eq_some'] at h
  obtain ⟨e, he, rfl⟩ := h
  have h1 := List.mem_of_find?_eq_some he
  have h2 := List.find?_some he
  simp only [decide_eq_true_eq] at h2
  rw [← h2]
  exact h1

theorem get?_eq_none (o : JSObj) (k : String) (h : k ∉ JSObj.keys o) : JSObj.get? o k = none := by
  cases hg : JSObj.get? o k with
  | none => rfl
  | some v =>
    exact absurd (List.mem_map_of_mem (fun e => e.1) (mem_of_get? o k v hg)) h


/-! ## The score object of the Evaluations page -/

open Evaluations

theorem scoreKey_inj (a b : Int) (ha : a.natAbs < 9007199254740992)
    (hb : b.natAbs < 9007199254740992) (h : scoreKey a = scoreKey b) : a = b := by
  have h2 : parseInt (.num (.int a)) = parseInt (.num (.int b)) := by
    unfold parseInt
    simp only [JSVal.toStr]
    unfold scoreKey at h
    rw [h]
  rw [parseInt_int a ha, parseInt_int b hb] at h2
  exact JSNum.int.inj h2

theorem parseInt_scoreKey (id : Int) (h : id.natAbs < 9007199254740992) :
    parseInt (.str (scoreKey id)) = .int id :=
  parseInt_int id h

theorem parseIntChars_int (s : List Char) (n : Int) (h : parseIntChars s = .int n) :
    roundNat n.natAbs = n.natAbs ∧ bitLength n.natAbs ≤ 1024 := by
  unfold parseIntChars at h
  simp only at h
  split_ifs at h
  · exact ofInt_int _ _ h
  · exact ofInt_int _ _ h

theorem storedScore_eq (score : JSVal) :
    storedScore score
      = match parseInt score with
        | .int n => .num (.int n)
        | .inf b => .num (.inf b)
        | .nan => zero := by
  unfold storedScore JSVal.or
  cases h : parseInt score with
  | nan => simp [JSVal.truthy]
  | inf b => simp [JSVal.truthy]
  | int i =>
    by_cases hi : i = 0
    · simp [JSVal.truthy, zero, hi]
    · simp [JSVal.truthy, hi]

/-- A stored integer score is a double. -/
theorem storedScore_double (score : JSVal) (n : Int) (h : storedScore score = .num (.int n)) :
    roundNat n.natAbs = n.natAbs ∧ bitLength n.natAbs ≤ 1024 := by
  rw [storedScore_eq] at h
  cases hp : parseInt score with
  | nan =>
    rw [hp] at h
    simp only [zero, JSVal.num.injEq, JSNum.int.injEq] at h
    subst h
    decide
  | inf b => rw [hp] at h; simp at h
  | int i =>
    rw [hp] at h
    simp only [JSVal.num.injEq, JSNum.int.injEq] at h
    subst h
    exact parseIntChars_int _ _ hp

/-- A stored score is a number other than `NaN`, so `score || 0` holds the
same number as `score`. -/
theorem storedScore_or_zero (score : JSVal) :
    (storedScore score).or zero = storedScore score := by
  unfold storedScore
  by_cases ht : (JSVal.num (parseInt score)).truthy = true
  · simp [JSVal.or, ht]
  · simp only [JSVal.or, ht, Bool.false_eq_true, if_false]
    decide

theorem scores_afterChanges (s : State) (form : EvalForm) (changes : List (JSVal × JSVal)) :
    (afterChanges s form changes).formData.scores = scoresAfter (initialScores form) changes := by
  unfold afterChanges scoresAfter
  have h0 : (loadFormDetails s form).formData.scores = initialScores form := rfl
  generalize loadFormDetails s form = st at h0
  generalize initialScores form = o at h0
  induction changes generalizing st o with
  | nil => simpa using h0
  | cons ch changes ih =>
    simp only [List.foldl_cons]
    apply ih
    simp [handleScoreChange, scoreChange, h0]

theorem forall_mem_foldl_set (cs : List Criterion) (P : String × JSVal → Prop) (o : JSObj)
    (h0 : ∀ e ∈ o, P e) (h : ∀ c ∈ cs, P (scoreKey c.id, zero)) :
    ∀ e ∈ cs.foldl (fun o c => JSObj.set o (scoreKey c.id) zero) o, P e := by
  induction cs generalizing o with
  | nil => simpa using h0
  | cons c cs ih =>
    simp only [List.foldl_cons]
    apply ih _ _ (fun c2 hc2 => h c2 (List.mem_cons_of_mem _ hc2))
    intro e he
    rcases mem_set o _ _ e he with rfl | he2
    · exact h c (by simp)
    · exact h0 e he2

theorem forall_mem_initialScores (form : EvalForm) (P : String × JSVal → Prop)
    (h : ∀ c ∈ form.criteria, P (scoreKey c.id, zero)) :
    ∀ e ∈ initialScores form, P e :=
  forall_mem_foldl_set form.criteria P [] (fun e he => by simp at he) h

theorem forall_mem_scoresAfter (P : String × JSVal → Prop) (o : JSObj)
    (changes : List (JSVal × JSVal)) (ho : ∀ e ∈ o, P e)
    (h : ∀ ch ∈ changes, P (ch.1.toStr, storedScore ch.2)) :
    ∀ e ∈ scoresAfter o changes, P e := by
  unfold scoresAfter
  induction changes generalizing o with
  | nil => simpa using ho
  | cons ch changes ih =>
    simp only [List.foldl_cons]
    apply ih _ _ (fun c hc => h c (List.mem_cons_of_mem _ hc))
    intro e he
    rcases mem_set _ _ _ e he with rfl | he2
    · exact h ch (by simp)
    · exact ho e ((mem_ownEntries o e).1 he2)

theorem keys_foldl_set (cs : List Criterion) (o : JSObj) (h : (JSObj.keys o).Nodup) :
    (JSObj.keys (cs.foldl (fun o c => JSObj.set o (scoreKey c.id) zero) o)).Nodup ∧
    ∀ k, k ∈ JSObj.keys (cs.foldl (fun o c => JSObj.set o (scoreKey c.id) zero) o)
      ↔ k ∈ JSObj.keys o ∨ k ∈ cs.map (fun c => scoreKey c.id) := by
  induction cs generalizing o with
  | nil => simp [h]
  | cons c cs ih =>
    simp only [List.foldl_cons]
    obtain ⟨h1, h2⟩ := ih (JSObj.set o (scoreKey c.id) zero) (nodup_keys_set o _ _ h)
    refine ⟨h1, fun k => ?_⟩
    rw [h2, mem_keys_set]
    simp only [List.map_cons, List.mem_cons]
    tauto

theorem keys_initialScores (form : EvalForm) :
    (JSObj.keys (initialScores form)).Nodup ∧
    ∀ k, k ∈ JSObj.keys (initialScores form) ↔ k ∈ (criterionIds form).map scoreKey := by
  obtain ⟨h1, h2⟩ := keys_foldl_set form.criteria [] (by simp [JSObj.keys])
  refine ⟨h1, fun k => ?_⟩
  have := h2 k
  simp only [JSObj.keys, List.map_nil, List.not_mem_nil, false_or] at this
  simp only [initialScores, JSObj.keys, criterionIds, List.map_map]
  exact this

/-- Changes of properties that exist keep the key set and its distinctness. -/
theorem keys_scoresAfter (o : JSObj) (changes : List (JSVal × JSVal))
    (hnd : (JSObj.keys o).Nodup) (hch : ∀ ch ∈ changes, ch.1.toStr ∈ JSObj.keys o) :
    (JSObj.keys (scoresAfter o changes)).Nodup ∧
    ∀ k, k ∈ JSObj.keys (scoresAfter o changes) ↔ k ∈ JSObj.keys o := by
  unfold scoresAfter
  induction changes generalizing o with
  | nil => simp [hnd]
  | cons ch changes ih =>
    simp only [List.foldl_cons]
    have hk := hch ch (by simp)
    have hperm := keys_ownEntries_perm o
    have hmem : ∀ k, k ∈ JSObj.keys (o.spreadSet ch.1.toStr (storedScore ch.2))
        ↔ k ∈ JSObj.keys o := by
      intro k
      unfold JSObj.spreadSet
      rw [mem_keys_set, hperm.mem_iff]
      constructor
      · rintro (rfl | h)
        · exact hk
        · exact h
      · exact Or.inr
    have hnd2 : (JSObj.keys (o.spreadSet ch.1.toStr (storedScore ch.2))).Nodup :=
      nodup_keys_set _ _ _ (hperm.nodup_iff.2 hnd)
    obtain ⟨h1, h2⟩ := ih _ hnd2
      (fun c hc => (hmem _).2 (hch c (List.mem_cons_of_mem _ hc)))
    exact ⟨h1, fun k => (h2 k).trans (hmem k)⟩

/-- C4. In every score state reached by `loadFormDetails` followed by any
`handleScoreChange` calls (any criterion ids, any entered values), the live
total shown in the modal equals the `total_score` that `handleSubmit` places
in the payload. -/
theorem live_total_eq_submitted_total (s : State) (user : User) (form : EvalForm)
    (changes : List (JSVal × JSVal)) :
    liveTotal (afterChanges s form changes).formData
      = (submitData user (afterChanges s form changes).formData).total_score := by
  have hall : ∀ e ∈ (afterChanges s form changes).formData.scores, e.2.or zero = e.2 := by
    rw [scores_afterChanges]
    apply forall_mem_scoresAfter (fun e => e.2.or zero = e.2)
    · apply forall_mem_initialScores form (fun e => e.2.or zero = e.2)
      intro c _
      show zero.or zero = zero
      decide
    · intro ch _
      exact storedScore_or_zero ch.2
  show liveTotal _ = totalScore _
  unfold liveTotal totalScore scoresArray
  rw [List.foldl_map, List.foldl_map]
  apply List.foldl_ext
  intro a e he
  rw [hall e ((mem_ownEntries _ e).1 he)]

/-- The score object reached on a form by changes of its own criteria: its keys
are distinct and are exactly the keys of the criterion ids. -/
theorem scores_invariant (s : State) (form : EvalForm) (changes : List (Int × JSVal))
    (hch : ∀ ch ∈ changes, ch.1 ∈ criterionIds form) :
    (JSObj.keys (afterChanges s form (inputChanges changes)).formData.scores).Nodup ∧
    (∀ k, k ∈ JSObj.keys (afterChanges s form (inputChanges changes)).formData.scores
      ↔ k ∈ (criterionIds form).map scoreKey) := by
  rw [scores_afterChanges]
  obtain ⟨h1, h2⟩ := keys_initialScores form
  have hch2 : ∀ ch ∈ inputChanges changes, ch.1.toStr ∈ JSObj.keys (initialScores form) := by
    intro ch hc
    simp only [inputChanges, List.mem_map] at hc
    obtain ⟨c, hc, rfl⟩ := hc
    rw [h2]
    exact List.mem_map_of_mem scoreKey (hch c hc)
  obtain ⟨h3, h4⟩ := keys_scoresAfter _ _ h1 hch2
  exact ⟨h3, fun k => (h4 k).trans (h2 k)⟩

/-- On a form with distinct criterion ids below `2 ^ 53` the keys of the score
object are the keys of the criterion ids, up to order. -/
theorem keys_perm_criterionIds (s : State) (form : EvalForm) (changes : List (Int × JSVal))
    (hnd : (criterionIds form).Nodup)
    (hids : ∀ id ∈ criterionIds form, id.natAbs < 9007199254740992)
    (hch : ∀ ch ∈ changes, ch.1 ∈ criterionIds form) :
    List.Perm (JSObj.keys (afterChanges s form (inputChanges changes)).formData.scores)
      ((criterionIds form).map scoreKey) := by
  obtain ⟨hnodup, hkeys⟩ := scores_invariant s form changes hch
  have hnd2 : ((criterionIds form).map scoreKey).Nodup :=
    List.Nodup.map_on (fun a ha b hb h => scoreKey_inj a b (hids a ha) (hids b hb) h) hnd
  exact (List.perm_ext_iff_of_nodup hnodup hnd2).2 hkeys

/-- Every value the score object holds after changes that store integers of
magnitude at most `B` is such an integer. -/
theorem bounded_scores (s : State) (form : EvalForm) (changes : List (JSVal × JSVal)) (B : Nat)
    (hin : ∀ ch ∈ changes, ∃ n : Int, storedScore ch.2 = .num (.int n) ∧ n.natAbs ≤ B) :
    ∀ e ∈ (afterChanges s form changes).formData.scores,
      ∃ n : Int, e.2 = .num (.int n) ∧ n.natAbs ≤ B := by
  rw [scores_afterChanges]
  apply forall_mem_scoresAfter (fun e => ∃ n : Int, e.2 = .num (.int n) ∧ n.natAbs ≤ B)
  · apply forall_mem_initialScores form
      (fun e => ∃ n : Int, e.2 = .num (.int n) ∧ n.natAbs ≤ B)
    intro c _
    exact ⟨0, rfl, Nat.zero_le B⟩
  · intro ch hc
    exact hin ch hc

/-- A reduction that adds at most `k` integers of magnitude at most `B`, with
`k * B` below `2 ^ 53`, is exact. -/
theorem foldl_add_bounded (f : α → JSNum) (g : α → Int) (l : List α) (B k : Nat)
    (h : ∀ a ∈ l, f a = .int (g a) ∧ (g a).natAbs ≤ B)
    (hk : l.length ≤ k) (hB : k * B < 9007199254740992) :
    l.foldl (fun (sum : JSNum) a => sum.add (f a)) (.int 0) = .int (l.map g).sum := by
  have hsum : (l.map (fun a => (g a).natAbs)).sum ≤ l.length * B := by
    have := List.sum_le_card_nsmul (l.map (fun a => (g a).natAbs)) B (by
      intro x hx
      obtain ⟨a, ha, rfl⟩ := List.mem_map.1 hx
      exact (h a ha).2)
    simpa using this
  have hle : l.length * B ≤ k * B := Nat.mul_le_mul_right B hk
  have := foldl_add_int f g l (fun a ha => (h a ha).1) 0 (by simp; omega)
  simpa using this

/-- C2, as stated, fails: after the text of twenty-three nines is entered for
criterion 1, the score state holds 99999999999999991611392 for it (and 0 for
the other criteria), so the sum of `M[c.id]` over the criteria is that number,
while the payload's scores and `total_score` are 1: `handleSubmit` parses the
stored number again, from its text `1e+23`. -/
theorem long_score_total_differs :
    (afterChanges freshPage roundTripForm
      (inputChanges [(1, .str "99999999999999999999999")])).formData.scores
      = [("1", .num (.int 99999999999999991611392)), ("2", .num (.int 0)),
         ("3", .num (.int 0))] ∧
    computeTotalSpec roundTripForm (afterChanges freshPage roundTripForm
      (inputChanges [(1, .str "99999999999999999999999")])).formData.scores
      = .int 99999999999999991611392 ∧
    (submitData userA (afterChanges freshPage roundTripForm
      (inputChanges [(1, .str "99999999999999999999999")])).formData).total_score
      = .int 1 := by
  decide

/-- C2, amended. For a form whose criterion ids are distinct and below 2^53 in
magnitude, and every score state reached by `loadFormDetails` followed by
`handleScoreChange` calls on the form's criteria that store integers of
magnitude at most `B`, where the number of criteria times `B` is below 2^53:
the `total_score` of the payload equals the sum, over the criteria of the
form, of the score stored under the criterion id (a missing key counting as
0). -/
theorem total_score_eq_spec_sum (s : State) (user : User) (form : EvalForm)
    (changes : List (Int × JSVal)) (B : Nat)
    (hnd : (criterionIds form).Nodup)
    (hids : ∀ id ∈ criterionIds form, id.natAbs < 9007199254740992)
    (hch : ∀ ch ∈ changes, ch.1 ∈ criterionIds form)
    (hin : ∀ ch ∈ changes, ∃ n : Int, storedScore ch.2 = .num (.int n) ∧ n.natAbs ≤ B)
    (hB : form.criteria.length * B < 9007199254740992) :
    (submitData user (afterChanges s form (inputChanges changes)).formData).total_score
      = computeTotalSpec form (afterChanges s form (inputChanges changes)).formData.scores := by
  obtain ⟨hnodup, hkeys⟩ := scores_invariant s form changes hch
  have hperm := keys_perm_criterionIds s form changes hnd hids hch
  have hbnd := bounded_scores s form (inputChanges changes) B (by
    intro ch hc
    simp only [inputChanges, List.mem_map] at hc
    obtain ⟨c, hc, rfl⟩ := hc
    exact hin c hc)
  generalize (afterChanges s form (inputChanges changes)).formData = fd at *
  have hlen : fd.scores.length = form.criteria.length := by
    have := hperm.length_eq
    simpa [JSObj.keys, criterionIds] using this
  have hBlt : ∀ e ∈ fd.scores, B < 9007199254740992 := by
    intro e he
    have h1 : 1 ≤ fd.scores.length := List.length_pos_of_mem he
    have : 1 * B ≤ form.criteria.length * B := Nat.mul_le_mul_right B (by omega)
    omega
  show totalScore fd = _
  have htot : totalScore fd = .int ((fd.scores.ownEntries.map (fun e => e.2.intOr0)).sum) := by
    unfold totalScore scoresArray
    rw [List.foldl_map]
    apply foldl_add_bounded (fun e : String × JSVal => parseInt e.2) (fun e => e.2.intOr0)
      fd.scores.ownEntries B form.criteria.length _ _ hB
    · intro e he
      have he2 := (mem_ownEntries _ e).1 he
      obtain ⟨n, hn, hnB⟩ := hbnd e he2
      have := hBlt e he2
      simp only [hn, JSVal.intOr0]
      exact ⟨parseInt_int n (by omega), hnB⟩
    · rw [(ownEntries_perm fd.scores).length_eq, hlen]
  have hspec : computeTotalSpec form fd.scores
      = .int ((form.criteria.map
          (fun c => ((fd.scores.get? (scoreKey c.id)).getD zero).intOr0)).sum) := by
    unfold computeTotalSpec
    apply foldl_add_bounded (fun c : Criterion => specScore fd.scores c.id)
      (fun c => ((fd.scores.get? (scoreKey c.id)).getD zero).intOr0)
      form.criteria B form.criteria.length _ (le_refl _) hB
    intro c hc
    have hk : scoreKey c.id ∈ JSObj.keys fd.scores :=
      (hkeys _).2 (List.mem_map_of_mem scoreKey (List.mem_map_of_mem (fun c => c.id) hc))
    obtain ⟨e, he, hek⟩ := List.mem_map.1 hk
    have hget := get?_of_mem fd.scores hnodup e he
    obtain ⟨n, hn, hnB⟩ := hbnd e he
    rw [hek] at hget
    simp only [specScore, hget, hn, Option.getD_some, JSVal.intOr0]
    exact ⟨trivial, hnB⟩
  rw [htot, hspec]
  congr 1
  rw [((ownEntries_perm fd.scores).map (fun e => e.2.intOr0)).sum_eq]
  have hl : fd.scores.map (fun e => e.2.intOr0)
      = (JSObj.keys fd.scores).map (fun k => ((fd.scores.get? k).getD zero).intOr0) := by
    simp only [JSObj.keys, List.map_map]
    apply List.map_congr_left
    intro e he
    simp [get?_of_mem fd.scores hnodup e he]
  have hr : form.criteria.map (fun c => ((fd.scores.get? (scoreKey c.id)).getD zero).intOr0)
      = ((criterionIds form).map scoreKey).map
          (fun k => ((fd.scores.get? k).getD zero).intOr0) := by
    simp [criterionIds, List.map_map, Function.comp_def]
  rw [hl, hr]
  exact (hperm.map _).sum_eq

theorem total_score_eq_spec_sum_witness :
    (submitData userA (afterChanges freshPage roundTripForm
      (inputChanges [(1, .str "8"), (2, .str "15"), (3, .str "20")])).formData).total_score
      = .int 43 :=
  (total_score_eq_spec_sum freshPage userA roundTripForm
    [(1, .str "8"), (2, .str "15"), (3, .str "20")] 20 (by decide) (by decide) (by decide)
    (by
      intro ch hc
      simp only [List.mem_cons, List.mem_singleton, List.not_mem_nil, or_false] at hc
      rcases hc with rfl | rfl | rfl
      · exact ⟨8, by decide, by decide⟩
      · exact ⟨15, by decide, by decide⟩
      · exact ⟨20, by decide, by decide⟩)
    (by decide)).trans (by decide)

/-! ## Order of the scores array -/

theorem arrayIndex?_scoreKey (id : Int) (h0 : 0 ≤ id) (h1 : id < 4294967295) :
    arrayIndex? (scoreKey id) = some id.natAbs := by
  have hk : scoreKey id = Nat.repr id.natAbs := by
    have hs : id.natAbs < 9007199254740992 := by omega
    simp [scoreKey, JSNum.toStr, not_lt.2 h0, natToStr_safe _ hs]
  have hv : digitsValue 10 (Nat.repr id.natAbs).toList = id.natAbs := by
    simp only [Nat.repr, List.asString, String.toList]
    exact (toDigits_spec id.natAbs).2.2
  unfold arrayIndex?
  simp only [hk, hv, true_and]
  have : id.natAbs < 4294967295 := by omega
  simp [this]

theorem keyIndex_scoreKey (id : Int) (h0 : 0 ≤ id) (h1 : id < 4294967295) :
    keyIndex (scoreKey id) = id := by
  unfold keyIndex
  rw [arrayIndex?_scoreKey id h0 h1]
  simp only [Option.getD_some]
  omega

/-- When every key is an array index the enumeration is the object sorted by index. -/
theorem ownEntries_of_index_keys (o : JSObj) (h : ∀ e ∈ o, (arrayIndex? e.1).isSome = true) :
    JSObj.ownEntries o = o.insertionSort indexLe := by
  unfold JSObj.ownEntries
  have h1 : o.filter (fun e => (arrayIndex? e.1).isSome) = o :=
    List.filter_eq_self.2 h
  have h2 : o.filter (fun e => (arrayIndex? e.1).isNone) = [] := by
    rw [List.filter_eq_nil_iff]
    intro e he
    have := h e he
    cases hx : arrayIndex? e.1 with
    | none => simp [hx] at this
    | some n => simp
  rw [h1, h2, List.append_nil]

theorem sorted_keyIndex_ownEntries (o : JSObj)
    (h : ∀ e ∈ o, (arrayIndex? e.1).isSome = true) :
    List.Sorted (· ≤ ·) ((JSObj.ownEntries o).map (fun e => keyIndex e.1)) := by
  rw [ownEntries_of_index_keys o h]
  have hs := List.sorted_insertionSort indexLe o
  unfold List.Sorted at hs ⊢
  rw [List.pairwise_map]
  refine hs.imp ?_
  intro a b hab
  unfold keyIndex
  exact Int.ofNat_le.2 hab

/-- C3, as stated, fails: for the form that lists criterion 2 before criterion
1, with 12 entered for criterion 2 and then 8 for criterion 1, the scores array
is ordered by ascending criterion id, `[(1, 8), (2, 12)]`, not in the form's
criteria order `[2, 1]`. -/
theorem scores_array_not_in_criteria_order :
    scoresArray (afterChanges freshPage reorderedForm
        (inputChanges [(2, .str "12"), (1, .str "8")])).formData
      = [{ criterion_id := .int 1, score := .int 8 },
         { criterion_id := .int 2, score := .int 12 }] ∧
    (scoresArray (afterChanges freshPage reorderedForm
        (inputChanges [(2, .str "12"), (1, .str "8")])).formData).map (fun e => e.criterion_id)
      ≠ (criterionIds reorderedForm).map JSNum.int := by
  decide

/-- C3, amended. For a form whose criterion ids are distinct integers in the
array-index range `0 ≤ id < 2 ^ 32 - 1` and every score state built for it,
the scores array of `handleSubmit` holds exactly one entry per criterion, the
criterion id paired with `parseInt` of the value stored for it, and the entries
appear in ascending order of criterion id (the enumeration order of the score
object's keys), which is the criteria order when the form lists its criteria
by ascending id. -/
theorem scores_array_sorted_by_id (s : State) (form : EvalForm)
    (changes : List (Int × JSVal))
    (hnd : (criterionIds form).Nodup)
    (hidx : ∀ id ∈ criterionIds form, 0 ≤ id ∧ id < 4294967295)
    (hch : ∀ ch ∈ changes, ch.1 ∈ criterionIds form) :
    scoresArray (afterChanges s form (inputChanges changes)).formData
      = ((criterionIds form).insertionSort (· ≤ ·)).map
          (entryFor (afterChanges s form (inputChanges changes)).formData.scores) := by
  obtain ⟨hnodup, hkeys⟩ := scores_invariant s form changes hch
  have hids : ∀ id ∈ criterionIds form, id.natAbs < 9007199254740992 := by
    intro id hid
    have := hidx id hid
    omega
  have h1 := keys_perm_criterionIds s form changes hnd hids hch
  generalize (afterChanges s form (inputChanges changes)).formData = fd at *
  have hkey : ∀ e ∈ fd.scores, ∃ id ∈ criterionIds form, e.1 = scoreKey id := by
    intro e he
    have := (hkeys e.1).1 (List.mem_map_of_mem (fun e => e.1) he)
    obtain ⟨id, hid, h⟩ := List.mem_map.1 this
    exact ⟨id, hid, h.symm⟩
  have hsome : ∀ e ∈ fd.scores, (arrayIndex? e.1).isSome = true := by
    intro e he
    obtain ⟨id, hid, h⟩ := hkey e he
    rw [h, arrayIndex?_scoreKey id (hidx id hid).1 (hidx id hid).2]
    rfl
  have hsorted := sorted_keyIndex_ownEntries fd.scores hsome
  have hperm : List.Perm ((JSObj.ownEntries fd.scores).map (fun e => keyIndex e.1))
      (criterionIds form) := by
    have h2 := ((keys_ownEntries_perm fd.scores).trans h1).map keyIndex
    have h3 : ((criterionIds form).map scoreKey).map keyIndex = criterionIds form := by
      rw [List.map_map]
      conv_rhs => rw [← List.map_id (criterionIds form)]
      apply List.map_congr_left
      intro id hid
      exact keyIndex_scoreKey id (hidx id hid).1 (hidx id hid).2
    rw [h3] at h2
    simpa [JSObj.keys, List.map_map, Function.comp_def] using h2
  have heq : (JSObj.ownEntries fd.scores).map (fun e => keyIndex e.1)
      = (criterionIds form).insertionSort (· ≤ ·) :=
    List.eq_of_perm_of_sorted
      (hperm.trans (List.perm_insertionSort (· ≤ ·) (criterionIds form)).symm)
      hsorted (List.sorted_insertionSort (· ≤ ·) (criterionIds form))
  rw [← heq, List.map_map]
  unfold scoresArray
  apply List.map_congr_left
  intro e he
  have he2 := (mem_ownEntries fd.scores e).1 he
  obtain ⟨id, hid, h⟩ := hkey e he2
  have hget := get?_of_mem fd.scores hnodup e he2
  have hidxe : keyIndex e.1 = id := by
    rw [h]
    exact keyIndex_scoreKey id (hidx id hid).1 (hidx id hid).2
  simp only [Function.comp_apply, entryFor, hidxe]
  rw [← h, hget, Option.getD_some, h, parseInt_scoreKey id (hids id hid)]

theorem scores_array_sorted_by_id_witness :
    scoresArray (afterChanges freshPage endToEndForm
        (inputChanges [(1, .str "8"), (2, .str "12")])).formData
      = [{ criterion_id := .int 1, score := .int 8 },
         { criterion_id := .int 2, score := .int 12 }] :=
  (scores_array_sorted_by_id freshPage endToEndForm [(1, .str "8"), (2, .str "12")]
    (by decide) (by decide) (by decide)).trans (by decide)

/-! ## Range of the packaged scores -/

/-- The values of the score object reached by changes that store integers are
integers, and they are doubles. -/
theorem integer_scores (s : State) (form : EvalForm) (changes : List (JSVal × JSVal))
    (hint : ∀ ch ∈ changes, ∃ n : Int, storedScore ch.2 = .num (.int n)) :
    ∀ e ∈ (afterChanges s form changes).formData.scores,
      ∃ n : Int, e.2 = .num (.int n) ∧ roundNat n.natAbs = n.natAbs ∧
        bitLength n.natAbs ≤ 1024 := by
  rw [scores_afterChanges]
  apply forall_mem_scoresAfter (fun e => ∃ n : Int, e.2 = .num (.int n) ∧
    roundNat n.natAbs = n.natAbs ∧ bitLength n.natAbs ≤ 1024)
  · apply forall_mem_initialScores form (fun e => ∃ n : Int, e.2 = .num (.int n) ∧
      roundNat n.natAbs = n.natAbs ∧ bitLength n.natAbs ≤ 1024)
    intro c _
    exact ⟨0, rfl, by decide, by decide⟩
  · intro ch hc
    obtain ⟨n, hn⟩ := hint ch hc
    exact ⟨n, hn, storedScore_double ch.2 n hn⟩


/-- C10, as stated, fails: after 25 is entered for criterion 2 (max points 20)
and -3 for criterion 1, the scores array holds 25 and -3: `handleScoreChange`
and `handleSubmit` apply no range check. -/
theorem out_of_range_scores_packaged :
    scoresArray (afterChanges freshPage roundTripForm
        (inputChanges [(2, .str "25"), (1, .str "-3")])).formData
      = [{ criterion_id := .int 1, score := .int (-3) },
         { criterion_id := .int 2, score := .int 25 },
         { criterion_id := .int 3, score := .int 0 }] ∧
    roundTripForm.criteria.map (fun c => (c.id, c.max_points)) = [(1, 10), (2, 20), (3, 20)] := by
  decide


/-- C10, amended. For a form whose criterion ids are below 2^53 in magnitude,
every score in a payload assembled by `handleSubmit` is an integer, and it
lies in `0 ≤ score ≤ max_points` of its criterion provided every value passed
to `handleScoreChange` was stored (`parseInt(value) || 0`) as an integer within
that range; the handlers themselves do not check the range. -/
theorem scores_in_range_of_inputs_in_range (s : State) (form : EvalForm)
    (changes : List (Int × JSVal))
    (hids : ∀ id ∈ criterionIds form, id.natAbs < 9007199254740992)
    (hmax : ∀ c ∈ form.criteria, 0 ≤ c.max_points)
    (hch : ∀ ch ∈ changes, ch.1 ∈ criterionIds form)
    (hin : ∀ ch ∈ changes, ∀ c ∈ form.criteria, c.id = ch.1 →
      ∃ n : Int, storedScore ch.2 = .num (.int n) ∧ 0 ≤ n ∧ n ≤ c.max_points) :
    ∀ e ∈ scoresArray (afterChanges s form (inputChanges changes)).formData,
      (∃ c ∈ form.criteria, e.criterion_id = .int c.id) ∧
      ∀ c ∈ form.criteria, e.criterion_id = .int c.id →
        ∃ n : Int, e.score = .int n ∧ 0 ≤ n ∧ n ≤ c.max_points := by
  have hinv : ∀ e ∈ (afterChanges s form (inputChanges changes)).formData.scores,
      ∃ id ∈ criterionIds form, e.1 = scoreKey id ∧
        ∀ c ∈ form.criteria, c.id = id →
          ∃ n : Int, e.2 = JSVal.num (.int n) ∧ 0 ≤ n ∧ n ≤ c.max_points ∧
            roundNat n.natAbs = n.natAbs ∧ bitLength n.natAbs ≤ 1024 := by
    rw [scores_afterChanges]
    apply forall_mem_scoresAfter (fun e => ∃ id ∈ criterionIds form, e.1 = scoreKey id ∧
        ∀ c ∈ form.criteria, c.id = id →
          ∃ n : Int, e.2 = JSVal.num (.int n) ∧ 0 ≤ n ∧ n ≤ c.max_points ∧
            roundNat n.natAbs = n.natAbs ∧ bitLength n.natAbs ≤ 1024)
    · apply forall_mem_initialScores form (fun e => ∃ id ∈ criterionIds form, e.1 = scoreKey id ∧
        ∀ c ∈ form.criteria, c.id = id →
          ∃ n : Int, e.2 = JSVal.num (.int n) ∧ 0 ≤ n ∧ n ≤ c.max_points ∧
            roundNat n.natAbs = n.natAbs ∧ bitLength n.natAbs ≤ 1024)
      intro c hc
      refine ⟨c.id, List.mem_map_of_mem (fun c => c.id) hc, rfl, ?_⟩
      intro c2 hc2 _
      exact ⟨0, rfl, le_refl 0, hmax c2 hc2, by decide, by decide⟩
    · intro ch hc
      simp only [inputChanges, List.mem_map] at hc
      obtain ⟨c0, hc0, rfl⟩ := hc
      refine ⟨c0.1, hch c0 hc0, rfl, ?_⟩
      intro c hcm hid
      obtain ⟨n, hn, h0, h1⟩ := hin c0 hc0 c hcm hid
      exact ⟨n, hn, h0, h1, storedScore_double c0.2 n hn⟩
  intro e he
  simp only [scoresArray, List.mem_map] at he
  obtain ⟨kv, hkv, rfl⟩ := he
  obtain ⟨id, hid, hk, hb⟩ := hinv kv ((mem_ownEntries _ kv).1 hkv)
  obtain ⟨c, hc, hcid⟩ := List.mem_map.1 hid
  have hpk : parseInt (.str kv.1) = .int id := by
    rw [hk]
    exact parseInt_scoreKey id (hids id hid)
  refine ⟨⟨c, hc, by simp [hpk, hcid]⟩, ?_⟩
  intro c2 hc2 heq
  simp only [hpk, JSNum.int.injEq] at heq
  obtain ⟨n, hn, h0, h1, hr, hbl⟩ := hb c2 hc2 heq.symm
  simp only [hn]
  rcases parseInt_double n hr hbl with h | ⟨hbig, d, hd, h⟩
  · exact ⟨n, h, h0, h1⟩
  · have hneg : ¬ n < 0 := by omega
    rw [if_neg hneg] at h
    exact ⟨d, h, by omega, by omega⟩

theorem scores_in_range_of_inputs_in_range_witness :
    ({ criterion_id := .int 2, score := .int 12 } : ScoreEntry)
        ∈ scoresArray (afterChanges freshPage endToEndForm
            (inputChanges [(1, .str "8"), (2, .str "12")])).formData ∧
    ∃ n : Int, JSNum.int 12 = .int n ∧ 0 ≤ n ∧ n ≤ 15 :=
  ⟨by decide,
   ((scores_in_range_of_inputs_in_range freshPage endToEndForm
      [(1, .str "8"), (2, .str "12")] (by decide) (by decide) (by decide)
      (by
        intro ch hc c hcm hid
        simp only [endToEndForm, List.mem_cons, List.mem_singleton, List.not_mem_nil,
          or_false] at hc hcm
        rcases hc with rfl | rfl <;> rcases hcm with rfl | rfl <;>
          first
          | exact ⟨8, by decide, by decide, by decide⟩
          | exact ⟨12, by decide, by decide, by decide⟩
          | exact absurd hid (by decide))
      { criterion_id := .int 2, score := .int 12 } (by decide)).2
      { id := 2, text := "Teamwork", max_points := 15 } (by decide) rfl)⟩

/-! ## The evaluatee control -/

/-- C6. With a team selected, the options of the evaluatee control that select
a member are exactly the team members whose id differs from the current user's
id, in their original order, each carrying the member's id as value; none of
them comes from a member with the user's id, and none carries the user's id as
value (ids being integers below 2^53 in magnitude). -/
theorem evaluatee_options_exclude_user (fd : EvalDraft) (members : List Member) (user : User)
    (hteam : fd.team_id.truthy = true) :
    selectableEvaluatees (evaluateeOptions fd members user)
      = (members.filter (fun m => decide (m.id ≠ user.id))).map
          (fun m => { value := (JSNum.int m.id).toStr, label := m.name, disabled := false }) ∧
    ∀ o ∈ selectableEvaluatees (evaluateeOptions fd members user),
      ∃ m ∈ members, m.id ≠ user.id ∧ o.value = (JSNum.int m.id).toStr ∧
        (m.id.natAbs < 9007199254740992 → user.id.natAbs < 9007199254740992 →
          o.value ≠ (JSNum.int user.id).toStr) := by
  have heq : selectableEvaluatees (evaluateeOptions fd members user)
      = (members.filter (fun m => decide (m.id ≠ user.id))).map
          (fun m => { value := (JSNum.int m.id).toStr, label := m.name, disabled := false }) := by
    unfold selectableEvaluatees evaluateeOptions
    simp only [hteam, Bool.not_true, Bool.false_eq_true, if_false]
    by_cases hlen : members.length = 0
    · have : members = [] := List.length_eq_zero.1 hlen
      subst this
      simp
    · simp only [hlen, if_false]
      rw [List.filter_cons]
      simp only [Bool.not_false, ne_eq, not_true_eq_false, decide_False, Bool.and_false,
        Bool.false_eq_true, if_false]
      rw [List.filter_eq_self]
      intro o ho
      obtain ⟨m, _, rfl⟩ := List.mem_map.1 ho
      simpa using toStr_int_ne_empty m.id
  refine ⟨heq, ?_⟩
  rw [heq]
  intro o ho
  obtain ⟨m, hm, rfl⟩ := List.mem_map.1 ho
  have hne : m.id ≠ user.id := by simpa using (List.mem_filter.1 hm).2
  exact ⟨m, (List.mem_filter.1 hm).1, hne, rfl,
    fun h1 h2 h => hne (scoreKey_inj m.id user.id h1 h2 h)⟩

theorem evaluatee_options_exclude_user_witness :
    selectableEvaluatees (evaluateeOptions
        { initialDraft with team_id := .num (.int 1) }
        [{ id := 10, name := "A" }, { id := 11, name := "B" }] userA)
      = [{ value := "11", label := "B", disabled := false }] :=
  (evaluatee_options_exclude_user { initialDraft with team_id := .num (.int 1) }
    [{ id := 10, name := "A" }, { id := 11, name := "B" }] userA (by decide)).1.trans
    (by decide)

/-- C7, at the failing input. Team 1 is chosen and its members A and B are
loaded; team 2 is chosen, which clears the evaluatee, and while the members of
team 2 are still loading the control still lists the members of team 1, so B
can be picked. `handleSubmit` then sends a payload with team 2 and evaluatee
B (id 11), who is not a member of team 2 (members 10 and 12). -/
theorem stale_members_evaluatee_outside_team :
    (flowRun userA exampleTeams exampleDirectory initialFlow staleMembersTrace).map
        (fun fs => (handleSubmit userA fs.state .success).2.head?)
      = some (some (.apiCreate
          { form_id := .nan, evaluator_id := 10, evaluatee_id := .int 11, team_id := .int 2,
            total_score := .int 0, scores := [], comments := .str "" })) ∧
    (exampleDirectory (.num (.int 2))).map (fun ms => ms.map (fun m => m.id))
      = some [10, 12] := by
  decide


/-! ## What `handleScoreChange` stores -/

theorem length_set_le (o : JSObj) (k : String) (v : JSVal) :
    (JSObj.set o k v).length ≤ o.length + 1 := by
  induction o with
  | nil => simp [JSObj.set]
  | cons e o ih =>
    unfold JSObj.set
    split_ifs
    · simp
    · simp only [List.length_cons]
      omega

theorem length_initialScores_le (form : EvalForm) :
    (initialScores form).length ≤ form.criteria.length := by
  unfold initialScores
  suffices h : ∀ o : JSObj,
      (form.criteria.foldl (fun o c => JSObj.set o (scoreKey c.id) zero) o).length
        ≤ o.length + form.criteria.length by simpa using h []
  induction form.criteria with
  | nil => intro o; simp
  | cons c cs ih =>
    intro o
    simp only [List.foldl_cons, List.length_cons]
    have h1 := ih (JSObj.set o (scoreKey c.id) zero)
    have h2 := length_set_le o (scoreKey c.id) zero
    omega

theorem length_scoresAfter_le (o : JSObj) (changes : List (JSVal × JSVal)) :
    (scoresAfter o changes).length ≤ o.length + changes.length := by
  unfold scoresAfter
  induction changes generalizing o with
  | nil => simp
  | cons ch changes ih =>
    simp only [List.foldl_cons, List.length_cons]
    have h1 := ih (o.spreadSet ch.1.toStr (storedScore ch.2))
    have h2 : (o.spreadSet ch.1.toStr (storedScore ch.2)).length ≤ o.length + 1 := by
      unfold JSObj.spreadSet
      have := length_set_le (JSObj.ownEntries o) ch.1.toStr (storedScore ch.2)
      rw [(ownEntries_perm o).length_eq] at this
      exact this
    omega

/-- Adding integers never gives `NaN`. -/
theorem foldl_add_ne_nan (f : α → JSNum) (l : List α) (h : ∀ a ∈ l, ∃ n : Int, f a = .int n)
    (acc : JSNum) (hacc : acc ≠ .nan) :
    l.foldl (fun (sum : JSNum) a => sum.add (f a)) acc ≠ .nan := by
  induction l generalizing acc with
  | nil => simpa using hacc
  | cons a l ih =>
    simp only [List.foldl_cons]
    apply ih (fun b hb => h b (List.mem_cons_of_mem _ hb))
    obtain ⟨n, hn⟩ := h a (by simp)
    rw [hn]
    cases acc with
    | nan => exact absurd rfl hacc
    | inf b => simp [JSNum.add]
    | int i =>
      simp only [JSNum.add, JSNum.ofInt]
      split_ifs <;> simp

set_option maxRecDepth 100000 in
set_option exponentiation.threshold 2000 in
/-- C11, as stated, fails: for the text of four hundred nines `parseInt` gives
`Infinity`, which `handleScoreChange` stores; `handleSubmit` then packages the
score `NaN` for that criterion (it parses the text `Infinity`) and the
`total_score` `NaN`. -/
theorem infinite_score_stored :
    (handleScoreChange freshPage (.num (.int 1)) (.str nines)).formData.scores.get? "1"
      = some (.num (.inf false)) ∧
    (submitData userA (afterChanges freshPage endToEndForm
      [(.num (.int 1), .str nines)]).formData).scores
      = [{ criterion_id := .int 1, score := .nan },
         { criterion_id := .int 2, score := .int 0 }] ∧
    (submitData userA (afterChanges freshPage endToEndForm
      [(.num (.int 1), .str nines)]).formData).total_score = .nan := by
  decide

/-- C11, amended. Whatever value is passed to `handleScoreChange`, the value
stored for the criterion is a number other than `NaN`: the integer or the
infinity `parseInt` reads from the input, and 0 when `parseInt` gives `NaN`
(empty or non-numeric text). In a state reached by `loadFormDetails` and
`handleScoreChange` calls that stored integers, every score of the payload
assembled by `handleSubmit` is an integer and the `total_score` is not `NaN`;
when the stored integers have magnitude at most `B` and the number of criteria
and of calls, times `B`, is below 2^53, the `total_score` is an integer. -/
theorem stored_score_is_parsed_or_zero (s : State) (user : User) (form : EvalForm)
    (changes : List (JSVal × JSVal)) (criterionId score : JSVal) :
    (handleScoreChange s criterionId score).formData.scores.get? criterionId.toStr
      = some (match parseInt score with
              | .int n => .num (.int n)
              | .inf b => .num (.inf b)
              | .nan => zero) ∧
    ((∀ ch ∈ changes, ∃ n : Int, storedScore ch.2 = .num (.int n)) →
      (∀ e ∈ (submitData user (afterChanges s form changes).formData).scores,
        ∃ n : Int, e.score = .int n) ∧
      (submitData user (afterChanges s form changes).formData).total_score ≠ .nan) ∧
    (∀ B : Nat,
      (∀ ch ∈ changes, ∃ n : Int, storedScore ch.2 = .num (.int n) ∧ n.natAbs ≤ B) →
      (form.criteria.length + changes.length) * B < 9007199254740992 →
      ∃ n : Int, (submitData user (afterChanges s form changes).formData).total_score
        = .int n) := by
  refine ⟨?_, ?_, ?_⟩
  · show JSObj.get? (JSObj.set _ _ _) _ = _
    rw [get?_set, if_pos rfl, storedScore_eq]
  · intro hint
    have hall := integer_scores s form changes hint
    have hscore : ∀ e ∈ (submitData user (afterChanges s form changes).formData).scores,
        ∃ n : Int, e.score = .int n := by
      intro e he
      obtain ⟨kv, hkv, rfl⟩ := List.mem_map.1 he
      obtain ⟨n, hn, hr, hb⟩ := hall kv ((mem_ownEntries _ kv).1 hkv)
      simp only [hn]
      rcases parseInt_double n hr hb with h | ⟨_, d, _, h⟩
      · exact ⟨n, h⟩
      · exact ⟨_, h⟩
    exact ⟨hscore, foldl_add_ne_nan (fun e : ScoreEntry => e.score) _ hscore _ (by simp)⟩
  · intro B hin hB
    have hbnd := bounded_scores s form changes B hin
    have hlen : (afterChanges s form changes).formData.scores.length
        ≤ form.criteria.length + changes.length := by
      rw [scores_afterChanges]
      have h1 := length_scoresAfter_le (initialScores form) changes
      have h2 := length_initialScores_le form
      omega
    generalize (afterChanges s form changes).formData = fd at *
    refine ⟨(fd.scores.ownEntries.map (fun e => e.2.intOr0)).sum, ?_⟩
    show totalScore fd = _
    unfold totalScore scoresArray
    rw [List.foldl_map]
    apply foldl_add_bounded (fun e : String × JSVal => parseInt e.2) (fun e => e.2.intOr0)
      fd.scores.ownEntries B (form.criteria.length + changes.length) _ _ hB
    · intro e he
      have he2 := (mem_ownEntries _ e).1 he
      obtain ⟨n, hn, hnB⟩ := hbnd e he2
      have h1 : 1 ≤ fd.scores.length := List.length_pos_of_mem he2
      have h2 : 1 * B ≤ (form.criteria.length + changes.length) * B :=
        Nat.mul_le_mul_right B (by omega)
      simp only [hn, JSVal.intOr0]
      exact ⟨parseInt_int n (by omega), hnB⟩
    · rw [(ownEntries_perm fd.scores).length_eq]
      exact hlen

theorem stored_score_is_parsed_or_zero_witness :
    (handleScoreChange freshPage (.num (.int 1)) (.str "")).formData.scores.get? "1"
      = some (.num (.int 0)) ∧
    (handleScoreChange freshPage (.num (.int 1)) (.str "abc")).formData.scores.get? "1"
      = some (.num (.int 0)) ∧
    (handleScoreChange freshPage (.num (.int 1)) (.str "7.9")).formData.scores.get? "1"
      = some (.num (.int 7)) ∧
    ∃ n : Int, (submitData userA (afterChanges freshPage endToEndForm
      [(.num (.int 1), .str "abc"), (.num (.int 2), .str "7.9")]).formData).total_score
        = .int n :=
  ⟨(stored_score_is_parsed_or_zero freshPage userA endToEndForm [] (.num (.int 1))
      (.str "")).1.trans (by decide),
   (stored_score_is_parsed_or_zero freshPage userA endToEndForm [] (.num (.int 1))
      (.str "abc")).1.trans (by decide),
   (stored_score_is_parsed_or_zero freshPage userA endToEndForm [] (.num (.int 1))
      (.str "7.9")).1.trans (by decide),
   (stored_score_is_parsed_or_zero freshPage userA endToEndForm
      [(.num (.int 1), .str "abc"), (.num (.int 2), .str "7.9")] .undefined .undefined).2.2 7
      (by
        intro ch hc
        simp only [List.mem_cons, List.mem_singleton, List.not_mem_nil, or_false] at hc
        rcases hc with rfl | rfl
        · exact ⟨0, by decide, by decide⟩
        · exact ⟨7, by decide, by decide⟩)
      (by decide)⟩

/-! ## Independence of the insertion order -/

theorem nodup_keys_scoresAfter (o : JSObj) (changes : List (JSVal × JSVal))
    (hnd : (JSObj.keys o).Nodup) : (JSObj.keys (scoresAfter o changes)).Nodup := by
  unfold scoresAfter
  induction changes generalizing o with
  | nil => simpa using hnd
  | cons ch changes ih =>
    simp only [List.foldl_cons]
    exact ih _ (nodup_keys_set _ _ _ ((keys_ownEntries_perm o).nodup_iff.2 hnd))

theorem key_eq_scoreKey_keyIndex (k : String) (h : (arrayIndex? k).isSome = true) :
    k = scoreKey (keyIndex k) := by
  unfold keyIndex
  unfold arrayIndex? at h ⊢
  simp only at h ⊢
  split_ifs at h ⊢ with hc
  · simp only [Option.getD_some]
    have hs : digitsValue 10 k.toList < 9007199254740992 := by omega
    have hk : scoreKey ((digitsValue 10 k.toList : Nat) : Int)
        = Nat.repr (digitsValue 10 k.toList) := by
      have hneg : ¬ ((digitsValue 10 k.toList : Nat) : Int) < 0 := by omega
      simp only [scoreKey, JSNum.toStr, hneg, if_false, Int.natAbs_ofNat, natToStr_safe _ hs]
    rw [hk]
    exact hc.1
  · simp at h

/-- With distinct array-index keys, the enumeration of an object is determined
by the list of its key indices and by its lookups. -/
theorem ownEntries_eq_map_entryAt (o : JSObj) (hnd : (JSObj.keys o).Nodup)
    (hidx : ∀ e ∈ o, (arrayIndex? e.1).isSome = true) :
    JSObj.ownEntries o = ((JSObj.ownEntries o).map (fun e => keyIndex e.1)).map (entryAt o) := by
  rw [List.map_map]
  conv_lhs => rw [← List.map_id (JSObj.ownEntries o)]
  apply List.map_congr_left
  intro e he
  have he2 := (mem_ownEntries o e).1 he
  have hk := key_eq_scoreKey_keyIndex e.1 (hidx e he2)
  have hg := get?_of_mem o hnd e he2
  simp only [id, Function.comp_apply, entryAt]
  rw [← hk, hg]
  rfl

theorem get?_eq_of_same_on_keys (o1 o2 : JSObj)
    (h12 : ∀ k ∈ JSObj.keys o1, o1.get? k = o2.get? k)
    (h21 : ∀ k ∈ JSObj.keys o2, o2.get? k = o1.get? k) (k : String) :
    o1.get? k = o2.get? k := by
  by_cases h1 : k ∈ JSObj.keys o1
  · exact h12 k h1
  · by_cases h2 : k ∈ JSObj.keys o2
    · exact (h21 k h2).symm
    · rw [get?_eq_none o1 k h1, get?_eq_none o2 k h2]

theorem perm_of_same_scores (o1 o2 : JSObj)
    (hnd1 : (JSObj.keys o1).Nodup) (hnd2 : (JSObj.keys o2).Nodup)
    (hsame : ∀ k, o1.get? k = o2.get? k) : List.Perm o1 o2 := by
  refine (List.perm_ext_iff_of_nodup (List.Nodup.of_map _ hnd1) (List.Nodup.of_map _ hnd2)).2 ?_
  intro e
  constructor
  · intro he
    have := get?_of_mem o1 hnd1 e he
    rw [hsame] at this
    exact mem_of_get? o2 e.1 e.2 this
  · intro he
    have := get?_of_mem o2 hnd2 e he
    rw [← hsame] at this
    exact mem_of_get? o1 e.1 e.2 this

/-- Two objects with distinct array-index keys and the same lookups enumerate alike. -/
theorem ownEntries_eq_of_same_scores (o1 o2 : JSObj)
    (hnd1 : (JSObj.keys o1).Nodup) (hnd2 : (JSObj.keys o2).Nodup)
    (hidx1 : ∀ e ∈ o1, (arrayIndex? e.1).isSome = true)
    (hidx2 : ∀ e ∈ o2, (arrayIndex? e.1).isSome = true)
    (hsame : ∀ k, o1.get? k = o2.get? k) :
    JSObj.ownEntries o1 = JSObj.ownEntries o2 := by
  have hperm := perm_of_same_scores o1 o2 hnd1 hnd2 hsame
  have hidxs : (JSObj.ownEntries o1).map (fun e => keyIndex e.1)
      = (JSObj.ownEntries o2).map (fun e => keyIndex e.1) :=
    List.eq_of_perm_of_sorted
      ((((ownEntries_perm o1).trans hperm).trans (ownEntries_perm o2).symm).map _)
      (sorted_keyIndex_ownEntries o1 hidx1) (sorted_keyIndex_ownEntries o2 hidx2)
  rw [ownEntries_eq_map_entryAt o1 hnd1 hidx1, ownEntries_eq_map_entryAt o2 hnd2 hidx2, hidxs]
  apply List.map_congr_left
  intro i _
  simp only [entryAt, hsame]

/-- The score object reached by changes of array-index criterion ids on a form
with array-index criterion ids: distinct keys, all of them array indices. -/
theorem index_keys_invariant (s : State) (form : EvalForm) (changes : List (Int × JSVal))
    (hf : ∀ id ∈ criterionIds form, 0 ≤ id ∧ id < 4294967295)
    (hc : ∀ ch ∈ changes, 0 ≤ ch.1 ∧ ch.1 < 4294967295) :
    (JSObj.keys (afterChanges s form (inputChanges changes)).formData.scores).Nodup ∧
    ∀ e ∈ (afterChanges s form (inputChanges changes)).formData.scores,
      (arrayIndex? e.1).isSome = true := by
  rw [scores_afterChanges]
  refine ⟨nodup_keys_scoresAfter _ _ (keys_initialScores form).1, ?_⟩
  apply forall_mem_scoresAfter
  · apply forall_mem_initialScores
    intro c hcm
    have := hf c.id (List.mem_map_of_mem (fun c => c.id) hcm)
    simp [arrayIndex?_scoreKey c.id this.1 this.2]
  · intro ch hch
    simp only [inputChanges, List.mem_map] at hch
    obtain ⟨c0, hc0, rfl⟩ := hch
    have := hc c0 hc0
    show (arrayIndex? (scoreKey c0.1)).isSome = true
    simp [arrayIndex?_scoreKey c0.1 this.1 this.2]

/-- C12, as stated, fails: on a form without criteria, entering 12 for the
criterion id -2 and then 8 for the id -1, or the same values in the other
order, gives two score states with the same criterion-to-score associations,
but `handleSubmit` lists the scores in the order in which the keys were
created, so the two scores arrays differ. -/
theorem negative_ids_keep_creation_order :
    (∀ k ∈ JSObj.keys (afterChanges freshPage emptyForm
        (inputChanges [(-2, .str "12"), (-1, .str "8")])).formData.scores,
      (afterChanges freshPage emptyForm
          (inputChanges [(-2, .str "12"), (-1, .str "8")])).formData.scores.get? k
        = (afterChanges freshPage emptyForm
          (inputChanges [(-1, .str "8"), (-2, .str "12")])).formData.scores.get? k) ∧
    (∀ k ∈ JSObj.keys (afterChanges freshPage emptyForm
        (inputChanges [(-1, .str "8"), (-2, .str "12")])).formData.scores,
      (afterChanges freshPage emptyForm
          (inputChanges [(-1, .str "8"), (-2, .str "12")])).formData.scores.get? k
        = (afterChanges freshPage emptyForm
          (inputChanges [(-2, .str "12"), (-1, .str "8")])).formData.scores.get? k) ∧
    (submitData userA (afterChanges freshPage emptyForm
        (inputChanges [(-2, .str "12"), (-1, .str "8")])).formData).scores
      = [{ criterion_id := .int (-2), score := .int 12 },
         { criterion_id := .int (-1), score := .int 8 }] ∧
    (submitData userA (afterChanges freshPage emptyForm
        (inputChanges [(-1, .str "8"), (-2, .str "12")])).formData).scores
      = [{ criterion_id := .int (-1), score := .int 8 },
         { criterion_id := .int (-2), score := .int 12 }] := by
  decide

/-- C12, amended. Two score states that hold the same criterion-to-score associations,
built on loaded forms by `handleScoreChange` calls in any orders (criterion ids
being array-index integers, `0 ≤ id < 2 ^ 32 - 1`), give the same scores array
and the same `total_score` in `handleSubmit`, whatever the order in which their
keys were created; and computing the payload again, after a call of
`handleSubmit` that the API rejected, gives the same payload. -/
theorem submission_independent_of_change_order (user : User) (s1 s2 : State)
    (form1 form2 : EvalForm) (ch1 ch2 : List (Int × JSVal))
    (hf1 : ∀ id ∈ criterionIds form1, 0 ≤ id ∧ id < 4294967295)
    (hf2 : ∀ id ∈ criterionIds form2, 0 ≤ id ∧ id < 4294967295)
    (hc1 : ∀ ch ∈ ch1, 0 ≤ ch.1 ∧ ch.1 < 4294967295)
    (hc2 : ∀ ch ∈ ch2, 0 ≤ ch.1 ∧ ch.1 < 4294967295)
    (h12 : ∀ k ∈ JSObj.keys (afterChanges s1 form1 (inputChanges ch1)).formData.scores,
      (afterChanges s1 form1 (inputChanges ch1)).formData.scores.get? k
        = (afterChanges s2 form2 (inputChanges ch2)).formData.scores.get? k)
    (h21 : ∀ k ∈ JSObj.keys (afterChanges s2 form2 (inputChanges ch2)).formData.scores,
      (afterChanges s2 form2 (inputChanges ch2)).formData.scores.get? k
        = (afterChanges s1 form1 (inputChanges ch1)).formData.scores.get? k) :
    (submitData user (afterChanges s1 form1 (inputChanges ch1)).formData).scores
      = (submitData user (afterChanges s2 form2 (inputChanges ch2)).formData).scores ∧
    (submitData user (afterChanges s1 form1 (inputChanges ch1)).formData).total_score
      = (submitData user (afterChanges s2 form2 (inputChanges ch2)).formData).total_score ∧
    ∀ error : ApiError,
      submitData user
          (handleSubmit user (afterChanges s1 form1 (inputChanges ch1)) (.failure error)).1.formData
        = submitData user (afterChanges s1 form1 (inputChanges ch1)).formData := by
  obtain ⟨hnd1, hidx1⟩ := index_keys_invariant s1 form1 ch1 hf1 hc1
  obtain ⟨hnd2, hidx2⟩ := index_keys_invariant s2 form2 ch2 hf2 hc2
  have hown := ownEntries_eq_of_same_scores _ _ hnd1 hnd2 hidx1 hidx2
    (get?_eq_of_same_on_keys _ _ h12 h21)
  have harr : scoresArray (afterChanges s1 form1 (inputChanges ch1)).formData
      = scoresArray (afterChanges s2 form2 (inputChanges ch2)).formData := by
    unfold scoresArray
    rw [hown]
  refine ⟨harr, ?_, fun _ => rfl⟩
  show totalScore _ = totalScore _
  unfold totalScore
  rw [harr]

theorem submission_independent_of_change_order_witness :
    (afterChanges freshPage emptyForm
        (inputChanges [(2, .str "12"), (1, .str "8")])).formData.scores
      ≠ (afterChanges freshPage emptyForm
        (inputChanges [(1, .str "8"), (2, .str "12")])).formData.scores ∧
    (submitData userA (afterChanges freshPage emptyForm
        (inputChanges [(2, .str "12"), (1, .str "8")])).formData).scores
      = (submitData userA (afterChanges freshPage emptyForm
        (inputChanges [(1, .str "8"), (2, .str "12")])).formData).scores :=
  ⟨by decide,
   (submission_independent_of_change_order userA freshPage freshPage emptyForm emptyForm
      [(2, .str "12"), (1, .str "8")] [(1, .str "8"), (2, .str "12")]
      (by decide) (by decide) (by decide) (by decide) (by decide) (by decide)).1⟩

/-! ## Outcome of an evaluation submission -/

/-- C18. After a successful submission `handleSubmit` leaves the initial
draft (all fields empty, no scores), no selected form and a closed modal,
whatever the state held before. -/
theorem successful_submission_resets_draft (user : User) (s : State) :
    (handleSubmit user s .success).1.formData
      = { evaluation_form_id := .str "", team_id := .str "", evaluatee_id := .str "",
          scores := [], comments := .str "" } ∧
    (handleSubmit user s .success).1.formData = initialDraft ∧
    (handleSubmit user s .success).1.selectedForm = none ∧
    (handleSubmit user s .success).1.showModal = false :=
  ⟨rfl, rfl, rfl, rfl⟩

/-- C19. When the API rejects the submission `handleSubmit` leaves the state
as it was: the draft (form, team, evaluatee, scores, comments), the selected
form and the modal's open state are unchanged, whatever the error. -/
theorem rejected_submission_keeps_draft (user : User) (s : State) (error : ApiError) :
    (handleSubmit user s (.failure error)).1 = s ∧
    (handleSubmit user s (.failure error)).1.formData = s.formData ∧
    (handleSubmit user s (.failure error)).1.selectedForm = s.selectedForm ∧
    (handleSubmit user s (.failure error)).1.showModal = s.showModal :=
  ⟨rfl, rfl, rfl, rfl⟩

/-- C13, as stated, fails: when the `detail` of the response is the empty
string, the message reported is `error.message`, not the (empty) detail. -/
theorem empty_detail_not_reported :
    (handleSubmit userA freshPage (.failure emptyDetailError)).2
      = [.apiCreate (submitData userA freshPage.formData),
         .alert "Request failed with status code 400"] ∧
    errorMessage emptyDetailError ≠ "" := by
  decide

/-- C13, amended. When the submission fails with a `detail` that is a
non-empty string, the message `handleSubmit` reports is exactly that string;
when `detail` is a list of field errors, the message is made of one text per
entry, joined with `, ` in list order: the entry's `msg` when it is truthy,
and the entry's JSON text otherwise. -/
theorem evaluation_error_message_of_detail (user : User) (s : State) (error : ApiError) :
    (handleSubmit user s (.failure error)).2
      = [.apiCreate (submitData user s.formData), .alert (errorMessage error)] ∧
    (∀ text : String, error.detail = some (.text text) → text ≠ "" →
      errorMessage error = text) ∧
    (∀ errs : List FieldError, error.detail = some (.list errs) →
      errorMessage error = ", ".intercalate
        (errs.map (fun err => if err.msg.truthy then err.msg.toStr else err.json))) := by
  refine ⟨rfl, ?_, ?_⟩
  · intro text hd hne
    simp [errorMessage, hd, hne]
  · intro errs hd
    simp only [errorMessage, hd]
    congr 1
    apply List.map_congr_left
    intro err _
    unfold JSVal.or
    split_ifs <;> rfl

theorem evaluation_error_message_of_detail_witness :
    errorMessage { detail := some (.text "Already evaluated"), message := .str "x" }
      = "Already evaluated" ∧
    errorMessage fieldErrorsError = "field required, value is not a valid integer" :=
  ⟨(evaluation_error_message_of_detail userA freshPage
      { detail := some (.text "Already evaluated"), message := .str "x" }).2.1
      "Already evaluated" rfl (by decide),
   ((evaluation_error_message_of_detail userA freshPage fieldErrorsError).2.2 _ rfl).trans
      (by decide)⟩

/-- C14, as stated, fails: when the error response carries no `detail`, the
message reported is `error.message` (here the client's status message), not
the generic text. -/
theorem no_detail_reports_error_message :
    (handleSubmit userA freshPage (.failure noDetailError)).2
      = [.apiCreate (submitData userA freshPage.formData),
         .alert "Request failed with status code 500"] ∧
    errorMessage noDetailError ≠ "Failed to submit evaluation" := by
  decide

/-- C14, amended. When the submission fails and the error response carries no
`detail`, the message `handleSubmit` reports is `error.message` when that is
truthy, and the generic `Failed to submit evaluation` only when
`error.message` is missing or empty as well. -/
theorem evaluation_error_message_without_detail (user : User) (s : State) (error : ApiError)
    (hd : error.detail = none) :
    (handleSubmit user s (.failure error)).2
      = [.apiCreate (submitData user s.formData), .alert (errorMessage error)] ∧
    (error.message.truthy = true → errorMessage error = error.message.toStr) ∧
    (error.message.truthy = false → errorMessage error = "Failed to submit evaluation") := by
  refine ⟨rfl, ?_, ?_⟩
  · intro ht
    simp [errorMessage, hd, ht]
  · intro hf
    simp [errorMessage, hd, hf]

theorem evaluation_error_message_without_detail_witness :
    errorMessage noDetailError = "Request failed with status code 500" ∧
    errorMessage { detail := none, message := .undefined } = "Failed to submit evaluation" :=
  ⟨((evaluation_error_message_without_detail userA freshPage noDetailError rfl).2.1
      (by decide)).trans (by decide),
   (evaluation_error_message_without_detail userA freshPage
      { detail := none, message := .undefined } rfl).2.2 (by decide)⟩


/-! ## The interceptors -/

theorem getItem_removeItem (b : Api.Browser) (key k : String) :
    Api.getItem (Api.BrowserEffect.apply b (.removeItem key)) k
      = if k = key then none else Api.getItem b k := by
  unfold Api.getItem Api.BrowserEffect.apply
  simp only [List.find?_filter]
  by_cases hk : k = key
  · subst hk
    have hp : (fun e : String × String => decide (decide (e.1 ≠ k) = true ∧ decide (e.1 = k) = true))
        = fun _ => false := by
      funext e
      by_cases he : e.1 = k <;> simp [he]
    simp only [if_true]
    rw [hp]
    simp
  · have hp : (fun e : String × String => decide (decide (e.1 ≠ key) = true ∧ decide (e.1 = k) = true))
        = fun e => decide (e.1 = k) := by
      funext e
      by_cases he : e.1 = k
      · have : ¬ e.1 = key := fun h => hk (he.symm.trans h)
        simp [he, this, hk]
      · simp [he]
    simp only [hk, if_false]
    rw [hp]

/-- C16. The response-error interceptor removes `token` and `user` from local
storage and sends the page to `/login` exactly when the status of the error
response is 401: then neither entry is left, every other entry is kept and
the location is `/login`. For any other error, also one with no response,
storage and location are unchanged. In all cases the error is rejected to
the caller. -/
theorem response_interceptor_clears_session_on_401 (b : Api.Browser)
    (error : Api.ResponseError) :
    (Api.responseErrorEffects error
        = [.removeItem "token", .removeItem "user", .assignLocation "/login"]
      ↔ error.status = some (.num (.int 401))) ∧
    (error.status = some (.num (.int 401)) →
      Api.getItem (Api.responseErrorInterceptor b error).1 "token" = none ∧
      Api.getItem (Api.responseErrorInterceptor b error).1 "user" = none ∧
      (∀ k, k ≠ "token" → k ≠ "user" →
        Api.getItem (Api.responseErrorInterceptor b error).1 k = Api.getItem b k) ∧
      (Api.responseErrorInterceptor b error).1.location = "/login") ∧
    (error.status ≠ some (.num (.int 401)) →
      Api.responseErrorEffects error = [] ∧ (Api.responseErrorInterceptor b error).1 = b) ∧
    (Api.responseErrorInterceptor b error).2 = .rejected error := by
  refine ⟨?_, ?_, ?_, rfl⟩
  · by_cases h : error.status = some (.num (.int 401)) <;> simp [Api.responseErrorEffects, h]
  · intro h
    have hb : (Api.responseErrorInterceptor b error).1
        = Api.BrowserEffect.apply (Api.BrowserEffect.apply
            (Api.BrowserEffect.apply b (.removeItem "token")) (.removeItem "user"))
            (.assignLocation "/login") := by
      simp [Api.responseErrorInterceptor, Api.responseErrorEffects, h]
    have hloc : ∀ (b2 : Api.Browser) (k : String),
        Api.getItem (Api.BrowserEffect.apply b2 (.assignLocation "/login")) k
          = Api.getItem b2 k := fun _ _ => rfl
    rw [hb]
    refine ⟨?_, ?_, ?_, rfl⟩
    · rw [hloc, getItem_removeItem, getItem_removeItem]
      simp
    · rw [hloc, getItem_removeItem]
      simp
    · intro k h1 h2
      rw [hloc, getItem_removeItem, getItem_removeItem]
      simp [h1, h2]
  · intro h
    simp [Api.responseErrorInterceptor, Api.responseErrorEffects, h]

theorem response_interceptor_clears_session_on_401_witness :
    (Api.responseErrorInterceptor sessionBrowser
        { status := some (.num (.int 401)), error := noDetailError }).1
      = { localStorage := [("theme", "dark")], location := "/login" } ∧
    (Api.responseErrorInterceptor sessionBrowser
        { status := some (.num (.int 500)), error := noDetailError }).1 = sessionBrowser ∧
    (Api.responseErrorInterceptor sessionBrowser
        { status := none, error := noDetailError }).1 = sessionBrowser :=
  ⟨by decide,
   ((response_interceptor_clears_session_on_401 sessionBrowser
      { status := some (.num (.int 500)), error := noDetailError }).2.2.1 (by decide)).2,
   ((response_interceptor_clears_session_on_401 sessionBrowser
      { status := none, error := noDetailError }).2.2.1 (by decide)).2⟩

/-- C17. With a non-empty token stored, the request interceptor returns the
config with the `Authorization` header set to `Bearer ` followed by the
token and nothing else changed: every other header, the url, the method
and the data are as before. With no token stored (or an empty one) the
config is returned unchanged. -/
theorem request_interceptor_sets_authorization (b : Api.Browser) (config : Api.RequestConfig) :
    (∀ token : String, Api.getItem b "token" = some token → token ≠ "" →
      (Api.requestInterceptor b config).headers.get? "Authorization"
        = some (.str ("Bearer " ++ token)) ∧
      (∀ k, k ≠ "Authorization" →
        (Api.requestInterceptor b config).headers.get? k = config.headers.get? k) ∧
      (Api.requestInterceptor b config).url = config.url ∧
      (Api.requestInterceptor b config).method = config.method ∧
      (Api.requestInterceptor b config).data = config.data) ∧
    (Api.getItem b "token" = none → Api.requestInterceptor b config = config) ∧
    (Api.getItem b "token" = some "" → Api.requestInterceptor b config = config) := by
  refine ⟨?_, ?_, ?_⟩
  · intro token ht hne
    have hr : Api.requestInterceptor b config
        = { config with
            headers := JSObj.set config.headers "Authorization" (.str ("Bearer " ++ token)) } := by
      simp [Api.requestInterceptor, ht, hne]
    rw [hr]
    refine ⟨?_, ?_, rfl, rfl, rfl⟩
    · simp only [get?_set, if_true]
    · intro k hk
      simp only [get?_set, hk, if_false]
  · intro h
    simp [Api.requestInterceptor, h]
  · intro h
    simp [Api.requestInterceptor, h]

theorem request_interceptor_sets_authorization_witness :
    (Api.requestInterceptor sessionBrowser formsRequest).headers
      = [("Content-Type", .str "application/json"),
         ("Authorization", .str "Bearer abc123")] ∧
    Api.requestInterceptor { localStorage := [], location := "/login" } formsRequest
      = formsRequest :=
  ⟨by decide,
   (request_interceptor_sets_authorization { localStorage := [], location := "/login" }
      formsRequest).2.1 (by decide)⟩


/-! ## The initial load of the pages -/

/-- C23. On the initial load of the Evaluations page and of the Dashboard, if
any of the three list requests fails, the only state change is that `loading`
becomes false: every list and stat keeps its empty initial value, also those
whose own request succeeded, and the empty state is rendered. -/
theorem failed_initial_load_shows_empty_state
    (evaluationsRes formsRes teamsRes : ListOutcome)
    (projectsRes teamsRes2 evalsRes : Dashboard.ListOutcome)
    (hfail : evaluationsRes = .failed ∨ formsRes = .failed ∨ teamsRes = .failed)
    (hfail2 : projectsRes = .failed ∨ teamsRes2 = .failed ∨ evalsRes = .failed) :
    (loadData initialLists evaluationsRes formsRes teamsRes).1
      = { evaluations := [], forms := [], teams := [], loading := false } ∧
    (loadData initialLists evaluationsRes formsRes teamsRes).1.showsEmptyState = true ∧
    Dashboard.loadDashboard Dashboard.initialState projectsRes teamsRes2 evalsRes
      = { stats := { projects := zero, teams := zero, evaluations := zero, pending := zero },
          recentProjects := [], loading := false } ∧
    (Dashboard.loadDashboard Dashboard.initialState projectsRes teamsRes2
      evalsRes).showsEmptyState = true := by
  have h1 : (loadData initialLists evaluationsRes formsRes teamsRes).1
      = { evaluations := [], forms := [], teams := [], loading := false } := by
    rcases hfail with h | h | h
    · subst h; rfl
    · subst h; cases evaluationsRes <;> rfl
    · subst h; cases evaluationsRes <;> cases formsRes <;> rfl
  have h2 : Dashboard.loadDashboard Dashboard.initialState projectsRes teamsRes2 evalsRes
      = { stats := { projects := zero, teams := zero, evaluations := zero, pending := zero },
          recentProjects := [], loading := false } := by
    rcases hfail2 with h | h | h
    · subst h; rfl
    · subst h; cases projectsRes <;> rfl
    · subst h; cases projectsRes <;> cases teamsRes2 <;> rfl
  refine ⟨h1, ?_, h2, ?_⟩
  · rw [h1]; rfl
  · rw [h2]; rfl

theorem failed_initial_load_shows_empty_state_witness :
    (loadData initialLists (.loaded (some [.str "evaluation 1"])) .failed
        (.loaded (some [.str "team 1"]))).1
      = { evaluations := [], forms := [], teams := [], loading := false } ∧
    (Dashboard.loadDashboard Dashboard.initialState
        (.loaded (.num (.int 3)) (some [.str "project 1"])) (.loaded (.num (.int 2)) none)
        .failed).showsEmptyState = true :=
  ⟨(failed_initial_load_shows_empty_state (.loaded (some [.str "evaluation 1"])) .failed
      (.loaded (some [.str "team 1"]))
      (.loaded (.num (.int 3)) (some [.str "project 1"])) (.loaded (.num (.int 2)) none) .failed
      (Or.inr (Or.inl rfl)) (Or.inr (Or.inr rfl))).1,
   (failed_initial_load_shows_empty_state (.loaded (some [.str "evaluation 1"])) .failed
      (.loaded (some [.str "team 1"]))
      (.loaded (.num (.int 3)) (some [.str "project 1"])) (.loaded (.num (.int 2)) none) .failed
      (Or.inr (Or.inl rfl)) (Or.inr (Or.inr rfl))).2.2.2⟩

/-! ## Placeholder of the evaluatee control and the selected form -/

/-- C25, at the failing input. With team 1 selected and the current user A as
its only member, no selectable member remains, yet the evaluatee control
renders only `Select a team member`: the `No other team members available`
placeholder is shown for an empty member list only. -/
theorem no_placeholder_when_only_member_is_user :
    evaluateeOptions { initialDraft with team_id := .num (.int 1) }
        [{ id := 10, name := "A" }] userA
      = [{ value := "", label := "Select a team member", disabled := false }] ∧
    selectableEvaluatees (evaluateeOptions { initialDraft with team_id := .num (.int 1) }
        [{ id := 10, name := "A" }] userA) = [] ∧
    evaluateeOptions { initialDraft with team_id := .num (.int 1) } [] userA
      = [{ value := "", label := "Select a team member", disabled := false },
         { value := "No other team members available",
           label := "No other team members available", disabled := true }] := by
  decide

/-- C26, at the failing inputs. After form 5 (criteria 1, 2, 3) is loaded and
15 is entered for criterion 2, choosing form 6 with a failing details request
leaves `evaluation_form_id` 6 with the scores and the selected form of form
5, and `handleSubmit` sends `form_id` 6 with scores keyed 1, 2, 3. Clearing
the selection after loading form 5 leaves the three score keys as well. -/
theorem scores_of_previous_form_survive :
    afterFailedFormLoad.formData.evaluation_form_id = .num (.int 6) ∧
    JSObj.keys afterFailedFormLoad.formData.scores = ["1", "2", "3"] ∧
    afterFailedFormLoad.selectedForm = some roundTripForm ∧
    (handleSubmit userA afterFailedFormLoad .success).2.head?
      = some (.apiCreate
          { form_id := .int 6, evaluator_id := 10, evaluatee_id := .nan, team_id := .nan,
            total_score := .int 15,
            scores := [{ criterion_id := .int 1, score := .int 0 },
                       { criterion_id := .int 2, score := .int 15 },
                       { criterion_id := .int 3, score := .int 0 }],
            comments := .str "" }) ∧
    afterClearedSelection.formData.evaluation_form_id = .num .nan ∧
    afterClearedSelection.selectedForm = none ∧
    JSObj.keys afterClearedSelection.formData.scores = ["1", "2", "3"] := by
  decide

end PeerEval
